import Mathlib

/-!
# Feature-flag cache of `common/featureflag/featureflag.go`

`GetFeatureFlagEnabled` and `fetchFlag` are embedded as a step machine: every
goroutine that executes a call owns a program counter named after the source
line it is about to execute, and one step performs the shared-memory or
synchronisation operation of that line.  The table `loadedGuildFlags`, the
mutex `loadedFeatureFlagsCond.L`, the condition variable and the registry
`registeredFeatureFlags` are fields of the state and of the environment.

Conventions taken from the Go runtime and the `sync` package:
* a `sync.Mutex` has no owner; `Unlock` of an unlocked mutex is the fatal
  error "sync: unlock of unlocked mutex", which ends the process;
* `Cond.Wait` unlocks, parks the goroutine until a `Broadcast`, then locks;
* a map value is a reference: the local `guildStore` of a call is the address
  of an inner map object;
* calling through a nil `*FeatureFlag` is a nil-dereference run-time panic.
-/

namespace Featureflag

/-- The Go type `LoadedFlags` (an `int16` bit set), given by its bit pattern. -/
abbrev LoadedFlags := Nat

/-- The constant `LoadedFlagEnabled = 1 << iota` with `iota = 0`. -/
def LoadedFlagEnabled : LoadedFlags := 1 <<< 0

/-- The constant `LoadedFlagFetching = 1 << iota` with `iota = 1`. -/
def LoadedFlagFetching : LoadedFlags := 1 <<< 1

/-- Guild identifiers (`int64`; the code only compares them). -/
abbrev GuildID := Int

/-- Feature keys: hashable comparable values behind `interface{}`. -/
abbrev Key := Nat

/-- Addresses of inner map objects (`map[interface{}]LoadedFlags`). -/
abbrev Addr := Nat

/-- Goroutine identifiers. -/
abbrev Tid := Nat

/-- Error values, identified by a code; `nil` is `none : Option GoError`. -/
abbrev GoError := Nat

/-- Values carried by a Go panic. -/
inductive PanicVal where
  | nilDeref
  | raised (code : Nat)
  deriving DecidableEq, Repr

/-- What one invocation of `fetchGuildEnabled` does: return `(bool, error)` or panic. -/
inductive FetchResult where
  | ret (enabled : Bool) (err : Option GoError)
  | panic (p : PanicVal)
  deriving DecidableEq, Repr

/-- How a call of `GetFeatureFlagEnabled` leaves: a `(bool, error)` return or a panic. -/
inductive Exit where
  | returned (enabled : Bool) (err : Option GoError)
  | panicked (p : PanicVal)
  deriving DecidableEq, Repr

/-- Synchronisation and fetch operations a goroutine performs, in program order. -/
inductive Ev where
  | lock
  | unlock
  | fetchCall
  | fetchRet (r : FetchResult)
  deriving DecidableEq, Repr

/-- Program points of one call, named after the source line about to be executed.
`parked` and `woken` are the two halves of `Cond.Wait` after its unlock; `inFetch`
is the time spent inside `flagDef.fetchGuildEnabled`; `l93 .. l98` are the deferred
cleanup of `fetchFlag` with the pending exit; `l48` is the deferred `Unlock` of
`GetFeatureFlagEnabled`. -/
inductive Pc where
  | l47
  | l51
  | l53
  | l59
  | l63
  | parked
  | woken
  | l72
  | l84
  | l101
  | inFetch
  | l93 (pend : Exit)
  | l94 (pend : Exit)
  | l95 (pend : Exit)
  | l98 (pend : Exit)
  | l113 (enabled : Bool)
  | l114 (enabled : Bool)
  | l115 (enabled : Bool)
  | l116 (enabled : Bool)
  | l48 (pend : Exit)
  | done (e : Exit)
  deriving DecidableEq, Repr

/-- The locals of one call of `GetFeatureFlagEnabled(guildID, key)`. -/
structure Thread where
  guildID : GuildID
  key : Key
  pc : Pc
  guildStore : Addr
  trace : List Ev

/-- The package-level state, the goroutines, and the state behind the fetch functions. -/
structure State (B : Type) where
  loadedGuildFlags : GuildID → Option Addr
  stores : Addr → Key → Option LoadedFlags
  nextAddr : Addr
  locked : Bool
  fatal : Bool
  threads : Tid → Option Thread
  backend : B
  fetchLog : List (Tid × GuildID × Key)

/-- What the code takes from outside: the registry `registeredFeatureFlags` (a key
without a usable definition maps to `none`) with each `fetchGuildEnabled` acting on
the backend state, and `errors.WithStackIf` of `emperror.dev/errors`. -/
structure Env (B : Type) where
  registeredFeatureFlags : Key → Option (B → GuildID → FetchResult × B)
  withStackIf : GoError → GoError

variable {B : Type}

/-- Move a goroutine to another program point. -/
def Thread.goto (th : Thread) (pc : Pc) : Thread :=
  { th with pc := pc }

/-- Record an operation and move on. -/
def Thread.log (th : Thread) (e : Ev) (pc : Pc) : Thread :=
  { th with pc := pc, trace := th.trace ++ [e] }

/-- Replace the locals of goroutine `t`. -/
def State.put (s : State B) (t : Tid) (th : Thread) : State B :=
  { s with threads := Function.update s.threads t (some th) }

/-- Assignment `m[k] = v` (`some v`) or `delete(m, k)` (`none`) on the inner map at `a`. -/
def setEntry (stores : Addr → Key → Option LoadedFlags) (a : Addr) (k : Key)
    (v : Option LoadedFlags) : Addr → Key → Option LoadedFlags :=
  Function.update stores a (Function.update (stores a) k v)

/-- The entry of a pair as read through `loadedGuildFlags[guildID][key]`. -/
def State.entry (s : State B) (g : GuildID) (k : Key) : Option LoadedFlags :=
  (s.loadedGuildFlags g).bind (fun a => s.stores a k)

/-- `Mutex.Lock`: blocks while the mutex is taken. -/
def lockMu (s : State B) (t : Tid) (th : Thread) (next : Pc) : Option (State B) :=
  if s.locked then none
  else some ({ s with locked := true }.put t (th.log Ev.lock next))

/-- `Mutex.Unlock`: releases the mutex whoever took it; on an unlocked mutex the
process dies with "sync: unlock of unlocked mutex". -/
def unlockMu (s : State B) (t : Tid) (th : Thread) (next : Pc) : State B :=
  if s.locked then { s with locked := false }.put t (th.log Ev.unlock next)
  else { s with fatal := true }.put t (th.log Ev.unlock th.pc)

/-- `Cond.Broadcast`: every parked goroutine becomes runnable. -/
def wake (th : Thread) : Thread :=
  match th.pc with
  | .parked => th.goto .woken
  | _ => th

/-- `Cond.Broadcast` by goroutine `t`, which then continues at `next`. -/
def broadcastBy (s : State B) (t : Tid) (th : Thread) (next : Pc) : State B :=
  { s with threads := Function.update (fun i => (s.threads i).map wake) t (some (th.goto next)) }

/-- The value stored at line 114: `LoadedFlagEnabled` or `LoadedFlags(0)`. -/
def loadedValue (enabled : Bool) : LoadedFlags :=
  if enabled then LoadedFlagEnabled else 0

/-- One step of goroutine `t` through `GetFeatureFlagEnabled` / `fetchFlag`.
`none`: the goroutine cannot move (blocked on the mutex, parked, finished, absent)
or the process is dead. -/
def step (env : Env B) (s : State B) (t : Tid) : Option (State B) :=
  if s.fatal then none
  else
    match s.threads t with
    | none => none
    | some th =>
      match th.pc with
      | .l47 => lockMu s t th .l51
      | .l51 =>
        match s.loadedGuildFlags th.guildID with
        | some a => some (s.put t { th with guildStore := a, pc := .l59 })
        | none => some (s.put t (th.goto .l53))
      | .l53 =>
        some ({ s with
                loadedGuildFlags := Function.update s.loadedGuildFlags th.guildID (some s.nextAddr)
                stores := Function.update s.stores s.nextAddr (fun _ => none)
                nextAddr := s.nextAddr + 1 }.put t
              { th with guildStore := s.nextAddr, pc := .l59 })
      | .l59 =>
        match s.stores th.guildStore th.key with
        | some flags =>
          if flags &&& LoadedFlagFetching ≠ 0 then some (s.put t (th.goto .l63))
          else
            some (s.put t
              (th.goto (.l48 (.returned (decide (flags &&& LoadedFlagEnabled ≠ 0)) none))))
        | none => some (s.put t (th.goto .l72))
      | .l63 => some (unlockMu s t th .parked)
      | .parked => none
      | .woken => lockMu s t th .l59
      | .l72 =>
        some ({ s with
                stores := setEntry s.stores th.guildStore th.key (some LoadedFlagFetching) }.put t
              (th.goto .l84))
      | .l84 => some (unlockMu s t th .l101)
      | .l101 =>
        match env.registeredFeatureFlags th.key with
        | none => some (s.put t (th.goto (.l93 (.panicked .nilDeref))))
        | some _ =>
          some ({ s with fetchLog := s.fetchLog ++ [(t, th.guildID, th.key)] }.put t
                (th.log Ev.fetchCall .inFetch))
      | .inFetch =>
        match env.registeredFeatureFlags th.key with
        | none => none
        | some f =>
          match f s.backend th.guildID with
          | (.ret enabled none, bk) =>
            some ({ s with backend := bk }.put t
                  (th.log (Ev.fetchRet (.ret enabled none)) (.l113 enabled)))
          | (.ret enabled (some err), bk) =>
            some ({ s with backend := bk }.put t
                  (th.log (Ev.fetchRet (.ret enabled (some err)))
                    (.l93 (.returned false (some (env.withStackIf err))))))
          | (.panic p, bk) =>
            some ({ s with backend := bk }.put t
                  (th.log (Ev.fetchRet (.panic p)) (.l93 (.panicked p))))
      | .l93 e => lockMu s t th (.l94 e)
      | .l94 e =>
        some ({ s with stores := setEntry s.stores th.guildStore th.key none }.put t
              (th.goto (.l95 e)))
      | .l95 e => some (unlockMu s t th (.l98 e))
      | .l98 e => some (broadcastBy s t th (.l48 e))
      | .l113 b => lockMu s t th (.l114 b)
      | .l114 b =>
        some ({ s with
                stores := setEntry s.stores th.guildStore th.key (some (loadedValue b)) }.put t
              (th.goto (.l115 b)))
      | .l115 b => some (unlockMu s t th (.l116 b))
      | .l116 b => some (broadcastBy s t th (.l48 (.returned b none)))
      | .l48 e => some (unlockMu s t th (.done e))
      | .done _ => none

/-- Run the goroutines in the order of a schedule; `none` when a scheduled
goroutine cannot move. -/
def exec (env : Env B) : State B → List Tid → Option (State B)
  | s, [] => some s
  | s, t :: ts => (step env s t).bind (fun s' => exec env s' ts)

/-- The locals of a goroutine that is about to execute line 47. -/
def newCall (g : GuildID) (k : Key) : Thread :=
  { guildID := g, key := k, pc := .l47, guildStore := 0, trace := [] }

/-- Goroutine `t` calls `GetFeatureFlagEnabled(g, k)`. -/
def spawn (s : State B) (t : Tid) (g : GuildID) (k : Key) : State B :=
  s.put t (newCall g k)

/-- Let goroutine `t` alone take up to `n` steps. -/
def runThread (env : Env B) (t : Tid) : Nat → State B → State B
  | 0, s => s
  | n + 1, s =>
    match step env s t with
    | none => s
    | some s' => runThread env t n s'

/-- The call `GetFeatureFlagEnabled(g, k)` made by goroutine `t` while no other
goroutine moves.  The longest path (miss, failed fetch, cleanup) has 13 steps. -/
def GetFeatureFlagEnabled (env : Env B) (s : State B) (t : Tid) (g : GuildID) (k : Key) :
    State B :=
  runThread env t 16 (spawn s t g k)

/-- The exit of goroutine `t`, once its call has left `GetFeatureFlagEnabled`. -/
def State.result (s : State B) (t : Tid) : Option Exit :=
  match s.threads t with
  | some th =>
    match th.pc with
    | .done e => some e
    | _ => none
  | none => none

/-- The program point of goroutine `t`. -/
def State.pcOf (s : State B) (t : Tid) : Option Pc :=
  (s.threads t).map (fun th => th.pc)

/-- Calls made one after the other, each by its own goroutine. -/
def callSeq (env : Env B) : State B → List (Tid × GuildID × Key) → State B
  | s, [] => s
  | s, c :: cs => callSeq env (GetFeatureFlagEnabled env s c.1 c.2.1 c.2.2) cs

/-- States reached from `s0` by any interleaving of the goroutines of `s0`. -/
inductive Steps (env : Env B) (s0 : State B) : State B → Prop where
  | start : Steps env s0 s0
  | next {s s' : State B} (t : Tid) : Steps env s0 s → step env s t = some s' → Steps env s0 s'

/-- States reached from `s0` by any interleaving in which further goroutines may
start calls at any time. -/
inductive Run (env : Env B) (s0 : State B) : State B → Prop where
  | start : Run env s0 s0
  | next {s s' : State B} (t : Tid) : Run env s0 s → step env s t = some s' → Run env s0 s'
  | call {s : State B} (t : Tid) (g : GuildID) (k : Key) :
      Run env s0 s → s.threads t = none → Run env s0 (spawn s t g k)

/-- Locks minus unlocks among the operations of a goroutine. -/
def balance : List Ev → Int
  | [] => 0
  | Ev.lock :: es => balance es + 1
  | Ev.unlock :: es => balance es - 1
  | _ :: es => balance es

/-- A state with an empty goroutine set, a free mutex and the given table. -/
def idle (lgf : GuildID → Option Addr) (stores : Addr → Key → Option LoadedFlags)
    (nextAddr : Addr) (bk : B) : State B :=
  { loadedGuildFlags := lgf, stores := stores, nextAddr := nextAddr, locked := false,
    fatal := false, threads := fun _ => none, backend := bk, fetchLog := [] }

/-- The state before any call: no tenant has an inner map yet. -/
def emptyState (bk : B) : State B :=
  idle (fun _ => none) (fun _ _ => none) 0 bk

/-- `N` goroutines `0 .. N-1`, each about to call `GetFeatureFlagEnabled(g, k)`. -/
def callers (s : State B) (N : Nat) (g : GuildID) (k : Key) : State B :=
  { s with threads := fun i => if i < N then some (newCall g k) else none }

/-- The control-flow edges of one call: from a program point, the operations that are
recorded (none or one) and the next program point. -/
inductive Edge (env : Env B) : Pc → List Ev → Pc → Prop where
  | l47 : Edge env .l47 [.lock] .l51
  | l51Found : Edge env .l51 [] .l59
  | l51Missing : Edge env .l51 [] .l53
  | l53 : Edge env .l53 [] .l59
  | l59Wait : Edge env .l59 [] .l63
  | l59Hit (b : Bool) : Edge env .l59 [] (.l48 (.returned b none))
  | l59Miss : Edge env .l59 [] .l72
  | l63 : Edge env .l63 [.unlock] .parked
  | woken : Edge env .woken [.lock] .l59
  | l72 : Edge env .l72 [] .l84
  | l84 : Edge env .l84 [.unlock] .l101
  | l101Nil : Edge env .l101 [] (.l93 (.panicked .nilDeref))
  | l101Call : Edge env .l101 [.fetchCall] .inFetch
  | retOk (b : Bool) : Edge env .inFetch [.fetchRet (.ret b none)] (.l113 b)
  | retErr (b : Bool) (err : GoError) :
      Edge env .inFetch [.fetchRet (.ret b (some err))]
        (.l93 (.returned false (some (env.withStackIf err))))
  | retPanic (p : PanicVal) : Edge env .inFetch [.fetchRet (.panic p)] (.l93 (.panicked p))
  | l93 (e : Exit) : Edge env (.l93 e) [.lock] (.l94 e)
  | l94 (e : Exit) : Edge env (.l94 e) [] (.l95 e)
  | l95 (e : Exit) : Edge env (.l95 e) [.unlock] (.l98 e)
  | l98 (e : Exit) : Edge env (.l98 e) [] (.l48 e)
  | l113 (b : Bool) : Edge env (.l113 b) [.lock] (.l114 b)
  | l114 (b : Bool) : Edge env (.l114 b) [] (.l115 b)
  | l115 (b : Bool) : Edge env (.l115 b) [.unlock] (.l116 b)
  | l116 (b : Bool) : Edge env (.l116 b) [] (.l48 (.returned b none))
  | l48 (e : Exit) : Edge env (.l48 e) [.unlock] (.done e)

/-- Whether the most recent mutex operation of a goroutine is a `Lock`. -/
def holdsMutex (tr : List Ev) : Bool :=
  tr.foldl (fun h e => match e with
    | Ev.lock => true
    | Ev.unlock => false
    | _ => h) false

/-- The shape a goroutine-local invariant `J` keeps in every state: it holds of the
goroutine, or the process died in an `Unlock` of this goroutine and `J` held before. -/
def Kept (env : Env B) (J : Pc → List Ev → Prop) (s : State B) : Prop :=
  ∀ t th, s.threads t = some th →
    J th.pc th.trace ∨
      (s.fatal = true ∧ ∃ nx tr, Edge env th.pc [Ev.unlock] nx ∧
        th.trace = tr ++ [Ev.unlock] ∧ J th.pc tr)

/-- What its own operations tell a goroutine about the mutex on the way to the fetch:
`some true` taken by it, `some false` released by it, `none` past the fetch. -/
def expectHeld : Pc → Option Bool
  | .l47 | .parked | .woken | .l101 | .inFetch => some false
  | .l51 | .l53 | .l59 | .l63 | .l72 | .l84 => some true
  | _ => none

/-- The mutex operations of a goroutine agree with `expectHeld`, and the operation
right before the fetch call is an `Unlock`. -/
def HeldAs (pc : Pc) (tr : List Ev) : Prop :=
  (∀ b, expectHeld pc = some b → holdsMutex tr = b ∧ balance tr = if b then 1 else 0) ∧
  (pc = .l101 → ∃ tr0, tr = tr0 ++ [Ev.unlock]) ∧
  (pc = .inFetch → ∃ tr0, tr = tr0 ++ [Ev.unlock, Ev.fetchCall])

/-- The result of the latest fetch a goroutine completed itself. -/
def ownFetch (tr : List Ev) : Option FetchResult :=
  tr.foldl (fun o e => match e with
    | Ev.fetchRet r => some r
    | _ => o) none

/-- What lines 102-118 make of the result of the fetch: the exit `fetchFlag` hands back. -/
def exitOfFetch (env : Env B) : FetchResult → Exit
  | .ret enabled none => .returned enabled none
  | .ret _ (some err) => .returned false (some (env.withStackIf err))
  | .panic p => .panicked p

/-- The pending or final exit of a goroutine comes from its own fetch; without a
fetch of its own it is a cache hit or the nil-dereference panic of line 102. -/
def OwnOutcome (env : Env B) (pc : Pc) (tr : List Ev) : Prop :=
  match pc with
  | .l113 b | .l114 b | .l115 b | .l116 b => ownFetch tr = some (.ret b none)
  | .l93 e | .l94 e | .l95 e | .l98 e =>
    (∃ r, ownFetch tr = some r ∧ e = exitOfFetch env r) ∨
      (ownFetch tr = none ∧ e = .panicked .nilDeref)
  | .l48 e | .done e =>
    (∃ r, ownFetch tr = some r ∧ e = exitOfFetch env r) ∨
      (ownFetch tr = none ∧ (e = .panicked .nilDeref ∨ ∃ b, e = .returned b none))
  | _ => ownFetch tr = none

/-- Program points from which a goroutine still writes the entry it claimed, without
reading it again. -/
def writeZone : Pc → Bool
  | .l72 | .l84 | .l101 | .inFetch | .l93 _ | .l94 _ | .l113 _ | .l114 _ => true
  | _ => false

/-- Goroutine `th` is not in the middle of a claim on entry `k` of the inner map at
`a`, and is not about to replace the inner map of guild `g`. -/
def NoClaim (g : GuildID) (a : Addr) (k : Key) (th : Thread) : Prop :=
  (th.pc = .l53 → th.guildID ≠ g) ∧
  (writeZone th.pc = true → ¬(th.guildStore = a ∧ th.key = k))

/-- The entry `k` of the inner map at `a`, which guild `g` uses, has the value `fl`, and
no goroutine is about to overwrite it. -/
def LoadedInv (g : GuildID) (a : Addr) (k : Key) (fl : LoadedFlags) (s : State B) : Prop :=
  s.loadedGuildFlags g = some a ∧ s.stores a k = some fl ∧ a < s.nextAddr ∧
  ∀ t th, s.threads t = some th → NoClaim g a k th

/-- A registry for the scenarios: key 1 always fetches `(true, nil)`; key 2 fails with
error 5 on the first fetch of the process and fetches `(true, nil)` afterwards; key 3
fetches `(true, err 9)`; key 4 panics.  The backend state counts the fetches of key 2.
`WithStackIf` maps an error code to the code of its wrapped form. -/
def demoEnv : Env Nat where
  registeredFeatureFlags := fun k =>
    if k = 1 then some (fun n _ => (FetchResult.ret true none, n))
    else if k = 2 then
      some (fun n _ => (if n = 0 then FetchResult.ret false (some 5) else .ret true none, n + 1))
    else if k = 3 then some (fun n _ => (FetchResult.ret true (some 9), n))
    else if k = 4 then some (fun n _ => (FetchResult.panic (.raised 13), n))
    else none
  withStackIf := fun e => e + 1000

/-- A table in which guild 42 has the inner map at address 0 with key 1 loaded as enabled. -/
def loadedTable : State Nat :=
  idle (fun g => if g = 42 then some 0 else none)
    (fun a k => if a = 0 ∧ k = 1 then some LoadedFlagEnabled else none) 1 0

/-- Two goroutines call `GetFeatureFlagEnabled(7, 2)`: goroutine 0 claims the miss and
enters the fetch, goroutine 1 finds the entry Fetching and waits, the fetch of
goroutine 0 fails and its cleanup deletes the entry and broadcasts, goroutine 1 wakes,
finds the pair absent, claims it and enters the fetch. -/
def retrySchedule : List Tid :=
  [0, 0, 0, 0, 0, 0, 0, 1, 1, 1, 1, 0, 0, 0, 0, 0, 1, 1, 1, 1, 1]

/-- Goroutine 0 is about to call for the pair `(1, 1)`, goroutines 1 and 2 for `(2, 1)`. -/
def threeCallers : State Nat :=
  spawn (spawn (spawn (emptyState 0) 0 1 1) 1 2 1) 2 2 1

/-- Goroutine 0 misses, fetches and stores, stopping before its deferred `Unlock`;
goroutine 1 locks and reads its pair as absent; the deferred `Unlock` of goroutine 0
releases the mutex goroutine 1 took; goroutine 2 locks and reads the same pair as
absent; goroutine 1 claims, unlocks, fetches and locks again for the store; goroutine 2
claims, unlocks and enters the fetch. -/
def stolenLockSchedule : List Tid :=
  [0, 0, 0, 0, 0, 0, 0, 0, 0, 0, 0, 0, 1, 1, 1, 1, 0, 2, 2, 2, 1, 1, 1, 1, 1, 2, 2, 2]

/-- The locals of goroutine 0 of `callers (emptyState 0) 1 42 1` once it is inside the fetch. -/
def inFetchThread : Thread :=
  { guildID := 42, key := 1, pc := .inFetch, guildStore := 0,
    trace := [Ev.lock, Ev.unlock, Ev.fetchCall] }

/-- The locals of a goroutine that waited for the pair `(7, 2)` and has been woken. -/
def wokenThread : Thread :=
  { guildID := 7, key := 2, pc := .woken, guildStore := 0, trace := [Ev.lock, Ev.unlock] }

/-- Two callers of the pair `(7, 2)` after the fetch of goroutine 0 has failed and its
cleanup has run: goroutine 1, which was waiting, is woken and the pair is absent. -/
def afterFailedFetch : State Nat :=
  runThread demoEnv 0 5 (runThread demoEnv 1 4 (runThread demoEnv 0 7
    (callers (emptyState 0) 2 7 2)))

/-- On the loaded table, goroutine 0 has read the pair `(42, 1)` and goroutine 1 has
missed on the pair `(7, 2)`, each running alone. -/
def afterHitAndMiss : State Nat :=
  runThread demoEnv 1 16 (runThread demoEnv 0 16 (spawn (spawn loadedTable 0 42 1) 1 7 2))

/-- Where an execution of callers of one pair stands relative to the fetch of the pair:
nobody has claimed the miss (`leader` holds the mutex, `store` is the inner map of the
guild if it exists), goroutine `fetcher` has claimed it (`called`: the fetch function
has been invoked), or the result is stored in the inner map at `a`. -/
inductive Phase where
  | unclaimed (leader : Option Tid) (store : Option Addr)
  | fetching (a : Addr) (fetcher : Tid) (called : Bool)
  | loaded (a : Addr)

/-- Program points of a goroutine that does not own the fetch. -/
def waiterOK (a : Addr) (th : Thread) : Prop :=
  th.pc = .l47 ∨ th.pc = .l51 ∨
    ((th.pc = .l59 ∨ th.pc = .l63 ∨ th.pc = .parked ∨ th.pc = .woken) ∧ th.guildStore = a)

/-- Where goroutine `t` may stand in each phase, for callers of the pair `(g, k)` whose
fetch returns `(b, nil)`. -/
def ThreadOK (g : GuildID) (k : Key) (b : Bool) (ph : Phase) (t : Tid) (th : Thread) : Prop :=
  th.guildID = g ∧ th.key = k ∧
    match ph with
    | .unclaimed L st =>
      (L ≠ some t ∧ th.pc = .l47) ∨
        (L = some t ∧ (th.pc = .l51 ∨ (th.pc = .l53 ∧ st = none) ∨
          ((th.pc = .l59 ∨ th.pc = .l72) ∧ st = some th.guildStore)))
    | .fetching a F called =>
      (t ≠ F ∧ waiterOK a th) ∨
        (t = F ∧ th.guildStore = a ∧
          ((called = false ∧ (th.pc = .l84 ∨ th.pc = .l101)) ∨
            (called = true ∧ (th.pc = .inFetch ∨ th.pc = .l113 b ∨ th.pc = .l114 b))))
    | .loaded a =>
      waiterOK a th ∨ th.pc = .l115 b ∨ th.pc = .l116 b ∨
        th.pc = .l48 (.returned b none) ∨ th.pc = .done (.returned b none)

/-- The table, the mutex and the fetch log in each phase. -/
def GlobalOK (g : GuildID) (k : Key) (b : Bool) (ph : Phase) (s : State B) : Prop :=
  match ph with
  | .unclaimed L st =>
    s.fetchLog = [] ∧ s.locked = L.isSome ∧ s.loadedGuildFlags g = st ∧
      ∀ a, st = some a → s.stores a k = none
  | .fetching a _ called =>
    s.loadedGuildFlags g = some a ∧ s.stores a k = some LoadedFlagFetching ∧
      s.fetchLog.length = if called then 1 else 0
  | .loaded a =>
    s.loadedGuildFlags g = some a ∧ s.stores a k = some (loadedValue b) ∧
      s.fetchLog.length = 1

/-- The invariant of the callers of one pair whose fetch succeeds. -/
def SingleFlight (g : GuildID) (k : Key) (b : Bool) (s : State B) : Prop :=
  ∃ ph, GlobalOK g k b ph s ∧ ∀ t th, s.threads t = some th → ThreadOK g k b ph t th

/-- Two callers of the pair `(42, 1)`: goroutine 0 misses, fetches and stores, goroutine
1 takes the mutex, and the deferred `Unlock` of goroutine 0 releases it, so that
goroutine 0 returns. -/
def afterStolenReturn : State Nat :=
  runThread demoEnv 0 1 (runThread demoEnv 1 1 (runThread demoEnv 0 12
    (callers (emptyState 0) 2 42 1)))

/-- Program points a call with an unregistered key can be at: never inside the fetch
or on the success path, and any pending or final exit is the nil-dereference panic of
line 102. -/
def NilOnly : Pc → Prop
  | .inFetch | .l113 _ | .l114 _ | .l115 _ | .l116 _ => False
  | .l93 e | .l94 e | .l95 e | .l98 e | .l48 e | .done e => e = .panicked .nilDeref
  | _ => True

/-- No inner map holds a Loaded entry for key `k`, and every call for `k` is at a
program point of `NilOnly`. -/
def NeverLoads (k : Key) (s : State B) : Prop :=
  (∀ a fl, s.stores a k = some fl → fl &&& LoadedFlagFetching ≠ 0) ∧
  ∀ t th, s.threads t = some th → th.key = k → NilOnly th.pc

/-- Two callers of the pair `(42, 9)`, whose key is not registered: goroutine 0 misses,
panics at line 102 and runs its cleanup, goroutine 1 takes the mutex, and the deferred
`Unlock` of goroutine 0 releases it, so that the panic leaves the call. -/
def afterNilPanic : State Nat :=
  runThread demoEnv 0 1 (runThread demoEnv 1 1 (runThread demoEnv 0 11
    (callers (emptyState 0) 2 42 9)))

/-- The locals of goroutine 0 in `afterNilPanic`. -/
def nilPanicThread : Thread :=
  { guildID := 42, key := 9, pc := .done (.panicked .nilDeref), guildStore := 0,
    trace := [Ev.lock, Ev.unlock, Ev.lock, Ev.unlock, Ev.unlock] }

/-- The shape of every table the code builds: inner maps live at allocated addresses
and no two guilds share an inner map. -/
def WellFormed (s : State B) : Prop :=
  (∀ g a, s.loadedGuildFlags g = some a → a < s.nextAddr) ∧
  (∀ g1 g2 a, s.loadedGuildFlags g1 = some a → s.loadedGuildFlags g2 = some a → g1 = g2)

/-- What a call of goroutine `t` for the pair `(g, k)`, running alone from `s0`, has
changed in `s`: nothing for other guilds, nothing in the inner maps of `s0` except the
entry of the pair, and at most a fresh inner map for `g` that is empty apart from `k`. -/
def Framed (g : GuildID) (k : Key) (s0 s : State B) (t : Tid) : Prop :=
  (∀ g', g' ≠ g → s.loadedGuildFlags g' = s0.loadedGuildFlags g') ∧
  (∀ a k', a < s0.nextAddr → ¬(s0.loadedGuildFlags g = some a ∧ k' = k) →
    s.stores a k' = s0.stores a k') ∧
  (∀ a0, s0.loadedGuildFlags g = some a0 →
    s.loadedGuildFlags g = some a0 ∧ s.nextAddr = s0.nextAddr) ∧
  (s0.loadedGuildFlags g = none →
    (s.loadedGuildFlags g = none ∧ s.nextAddr = s0.nextAddr) ∨
      (s.loadedGuildFlags g = some s0.nextAddr ∧ s.nextAddr = s0.nextAddr + 1 ∧
        ∀ k', k' ≠ k → s.stores s0.nextAddr k' = none)) ∧
  ∀ th, s.threads t = some th →
    th.guildID = g ∧ th.key = k ∧
      (th.pc ≠ .l47 → th.pc ≠ .l51 → th.pc ≠ .l53 → s.loadedGuildFlags g = some th.guildStore) ∧
      (th.pc = .l53 → s.loadedGuildFlags g = none)

/-- Goroutine 0 is about to call for the pair `(1, 1)`, goroutine 1 for `(2, 1)` and
goroutine 2 for `(2, 2)`. -/
def twoGuildCallers : State Nat :=
  spawn (spawn (spawn (emptyState 0) 0 1 1) 1 2 1) 2 2 2

/-- Goroutine 0 misses, fetches and stores, stopping before its deferred `Unlock`;
goroutine 1 locks and finds that guild 2 has no inner map; the deferred `Unlock` of
goroutine 0 releases the mutex goroutine 1 took; goroutine 2 locks and also finds that
guild 2 has no inner map; goroutine 1 creates the inner map (line 54), claims its pair,
fetches and stores Loaded(true). -/
def beforeMapReplaced : List Tid :=
  [0, 0, 0, 0, 0, 0, 0, 0, 0, 0, 0, 0, 1, 1, 0, 2, 2, 1, 1, 1, 1, 1, 1, 1, 1]

/-- After `beforeMapReplaced`, goroutine 2 executes lines 53-54 and replaces the inner
map of guild 2 by a new, empty one. -/
def mapReplacedSchedule : List Tid :=
  beforeMapReplaced ++ [2]

/-! ## Theorems -/

set_option maxRecDepth 8000

theorem wake_cases (th : Thread) :
    (th.pc = .parked ∧ wake th = th.goto .woken) ∨ (th.pc ≠ .parked ∧ wake th = th) := by
  unfold wake
  split
  · left; simp_all
  · right; simp_all

theorem step_thread (env : Env B) (s s' : State B) (t : Tid) (h : step env s t = some s') :
    s.fatal = false ∧ ∃ th, s.threads t = some th ∧ ∃ th', s'.threads t = some th' ∧
      th'.guildID = th.guildID ∧ th'.key = th.key ∧
      ((s'.fatal = true ∧ th'.pc = th.pc ∧ th'.trace = th.trace ++ [Ev.unlock] ∧
          ∃ nx, Edge env th.pc [Ev.unlock] nx) ∨
        (s'.fatal = false ∧ ∃ evs, Edge env th.pc evs th'.pc ∧
          th'.trace = th.trace ++ evs)) := by
  unfold step at h
  split at h
  · simp at h
  · rename_i hf
    simp at hf
    refine ⟨hf, ?_⟩
    split at h
    · simp at h
    · rename_i th hth
      refine ⟨th, hth, ?_⟩
      split at h
      all_goals rename_i hpc
      all_goals (try simp only [lockMu, unlockMu, broadcastBy] at h)
      all_goals (try split at h)
      all_goals (try split at h)
      all_goals (try (simp only [Option.some.injEq] at h))
      all_goals (try (cases h; done))
      all_goals subst h
      all_goals
        simp only [State.put, Function.update_same, Option.some.injEq, exists_eq_left']
      all_goals refine ⟨by first | rfl | trivial, by first | rfl | trivial, ?_⟩
      all_goals rw [hpc]
      all_goals (try dsimp only [Thread.log, Thread.goto])
      all_goals
        first
        | (right; refine ⟨hf, ?_⟩; apply Exists.intro; apply And.intro; swap; rfl; constructor)
        | (right; refine ⟨hf, ?_⟩; apply Exists.intro; apply And.intro; constructor; simp)
        | exact Or.inl ⟨trivial, rfl, rfl, _, by constructor⟩

theorem step_others (env : Env B) (s s' : State B) (t : Tid) (h : step env s t = some s') :
    ∀ u, u ≠ t → s'.threads u = s.threads u ∨ s'.threads u = (s.threads u).map wake := by
  unfold step at h
  split at h
  · simp at h
  · split at h
    · simp at h
    · split at h
      all_goals (try simp only [lockMu, unlockMu, broadcastBy] at h)
      all_goals (try split at h)
      all_goals (try split at h)
      all_goals (try (simp only [Option.some.injEq] at h))
      all_goals (try (cases h; done))
      all_goals subst h
      all_goals intro u hu
      all_goals simp [State.put, Function.update, hu]
theorem step_kept (env : Env B) (J : Pc → List Ev → Prop)
    (hwake : ∀ tr, J .parked tr → J .woken tr)
    (hedge : ∀ pc evs pc' tr, Edge env pc evs pc' → J pc tr → J pc' (tr ++ evs))
    (s s' : State B) (t : Tid) (h : step env s t = some s') (hk : Kept env J s) :
    Kept env J s' := by
  obtain ⟨hf, th, hth, th', hth', -, -, hmove⟩ := step_thread env s s' t h
  have hJ : ∀ u x, s.threads u = some x → J x.pc x.trace := by
    intro u x hx
    rcases hk u x hx with h1 | ⟨h1, -⟩
    · exact h1
    · rw [hf] at h1; cases h1
  intro u x hx
  by_cases hu : u = t
  · subst hu
    rw [hth'] at hx
    cases hx
    rcases hmove with ⟨hfat, hpc, htr, nx, he⟩ | ⟨-, evs, he, htr⟩
    · right
      exact ⟨hfat, nx, th.trace, hpc ▸ he, htr, hpc ▸ hJ _ _ hth⟩
    · left
      rw [htr]
      exact hedge _ _ _ _ he (hJ _ _ hth)
  · left
    rcases step_others env s s' t h u hu with ho | ho
    · rw [ho] at hx
      exact hJ u x hx
    · rw [ho] at hx
      cases hy : s.threads u with
      | none => simp [hy] at hx
      | some y =>
        simp [hy] at hx
        subst hx
        rcases wake_cases y with ⟨hp, hw⟩ | ⟨-, hw⟩
        · rw [hw]
          have := hJ u y hy
          rw [hp] at this
          exact hwake _ this
        · rw [hw]; exact hJ u y hy

theorem run_kept (env : Env B) (J : Pc → List Ev → Prop)
    (hnew : J .l47 [])
    (hwake : ∀ tr, J .parked tr → J .woken tr)
    (hedge : ∀ pc evs pc' tr, Edge env pc evs pc' → J pc tr → J pc' (tr ++ evs))
    (s0 s : State B) (h0 : ∀ t th, s0.threads t = some th → J th.pc th.trace)
    (hrun : Run env s0 s) : Kept env J s := by
  induction hrun with
  | start => exact fun t th hth => Or.inl (h0 t th hth)
  | next t _ hstep ih => exact step_kept env J hwake hedge _ _ t hstep ih
  | call t g k _ hfree ih =>
    intro u x hx
    by_cases hu : u = t
    · subst hu
      simp [spawn, State.put] at hx
      subst hx
      exact Or.inl hnew
    · simp [spawn, State.put, Function.update, hu] at hx
      exact ih u x hx


theorem balance_append (tr : List Ev) (e : Ev) :
    balance (tr ++ [e]) = balance tr + balance [e] := by
  induction tr with
  | nil => simp [balance]
  | cons x xs ih =>
    cases x <;> simp [balance, ih] <;> ring

theorem holdsMutex_append (tr : List Ev) (e : Ev) :
    holdsMutex (tr ++ [e]) =
      match e with
      | Ev.lock => true
      | Ev.unlock => false
      | _ => holdsMutex tr := by
  cases e <;> simp [holdsMutex, List.foldl_append]

theorem HeldAs_edge (env : Env B) (pc : Pc) (evs : List Ev) (pc' : Pc) (tr : List Ev)
    (he : Edge env pc evs pc') (h : HeldAs pc tr) : HeldAs pc' (tr ++ evs) := by
  unfold HeldAs at *
  cases he <;>
    simp_all [expectHeld, holdsMutex_append, balance_append, balance]
  obtain ⟨-, tr0, rfl⟩ := h
  exact ⟨tr0, by simp⟩

/-- **C7** (lock never held during fetch).  In every state of every interleaving of
calls, a goroutine that is about to invoke the fetch function (line 101) or is inside
it does not hold the mutex: its latest mutex operation is the `Unlock` of line 84, its
locks and unlocks balance, and nothing but the fetch call follows that `Unlock`. -/
theorem C7_mutex_not_held_during_fetch (env : Env B) (s0 s : State B)
    (h0 : ∀ t th, s0.threads t = some th → th.pc = .l47 ∧ th.trace = [])
    (hrun : Run env s0 s) (t : Tid) (th : Thread) (hth : s.threads t = some th)
    (hpc : th.pc = .l101 ∨ th.pc = .inFetch) :
    holdsMutex th.trace = false ∧ balance th.trace = 0 ∧
      (th.pc = .l101 → ∃ tr0, th.trace = tr0 ++ [Ev.unlock]) ∧
      (th.pc = .inFetch → ∃ tr0, th.trace = tr0 ++ [Ev.unlock, Ev.fetchCall]) := by
  have hk := run_kept env HeldAs (by simp [HeldAs, expectHeld, holdsMutex, balance])
    (by intro tr h; simpa [HeldAs, expectHeld] using h)
    (HeldAs_edge env) s0 s
    (by intro u x hx; obtain ⟨h1, h2⟩ := h0 u x hx; rw [h1, h2]; simp [HeldAs, expectHeld, holdsMutex, balance])
    hrun t th hth
  rcases hk with hk | ⟨-, nx, tr, he, -, -⟩
  · obtain ⟨h1, h2, h3⟩ := hk
    have := h1 false (by rcases hpc with h | h <;> simp [h, expectHeld])
    exact ⟨this.1, by simpa using this.2, h2, h3⟩
  · rcases hpc with h | h <;> rw [h] at he <;> cases he

theorem ownFetch_append (tr : List Ev) (e : Ev) :
    ownFetch (tr ++ [e]) =
      match e with
      | Ev.fetchRet r => some r
      | _ => ownFetch tr := by
  cases e <;> simp [ownFetch, List.foldl_append]

theorem OwnOutcome_edge (env : Env B) (pc : Pc) (evs : List Ev) (pc' : Pc) (tr : List Ev)
    (he : Edge env pc evs pc') (h : OwnOutcome env pc tr) : OwnOutcome env pc' (tr ++ evs) := by
  cases he
  case l98 e =>
    rcases h with h | ⟨h1, h2⟩
    · exact Or.inl (by simpa using h)
    · exact Or.inr ⟨by simpa using h1, Or.inl h2⟩
  all_goals simp_all [OwnOutcome, ownFetch_append, exitOfFetch]

/-- **C10** (waiters retry independently).  In every state of every interleaving: the
loop step at line 59 is decided by the current entry of the pair alone (Fetching: wait,
Loaded: return `(b, nil)`, absent: claim); a woken waiter re-reads the entry, and when
it finds the pair absent it marks it Fetching and invokes the fetch function itself;
and the exit of a call that has left is the outcome of the fetch of that same
goroutine: an error it returns is `WithStackIf` of the error of its own fetch. -/
theorem C10_waiters_retry_independently (env : Env B) (s0 s : State B)
    (h0 : ∀ t th, s0.threads t = some th → th.pc = .l47 ∧ th.trace = [])
    (hrun : Run env s0 s)
    (t : Tid) (th : Thread) (hth : s.threads t = some th) :
    (th.pc = .l59 → s.fatal = false →
      step env s t = some (s.put t (th.goto
        (match s.stores th.guildStore th.key with
          | some flags =>
            if flags &&& LoadedFlagFetching ≠ 0 then .l63
            else .l48 (.returned (decide (flags &&& LoadedFlagEnabled ≠ 0)) none)
          | none => .l72)))) ∧
    (th.pc = .woken → s.fatal = false → s.locked = false →
      (runThread env t 1 s).pcOf t = some .l59 ∧
      (s.stores th.guildStore th.key = none →
        (∃ f, env.registeredFeatureFlags th.key = some f) →
        (runThread env t 5 s).pcOf t = some .inFetch ∧
        (runThread env t 5 s).stores th.guildStore th.key = some LoadedFlagFetching ∧
        (runThread env t 5 s).fetchLog = s.fetchLog ++ [(t, th.guildID, th.key)])) ∧
    (∀ e, th.pc = .done e →
      (∀ r, ownFetch th.trace = some r → e = exitOfFetch env r) ∧
      (∀ b err, e = .returned b (some err) →
        b = false ∧ ∃ b0 err0, ownFetch th.trace = some (.ret b0 (some err0)) ∧
          err = env.withStackIf err0)) := by
  refine ⟨?_, ?_, ?_⟩
  · intro hpc hlive
    simp only [step, hlive, hth, hpc]
    cases s.stores th.guildStore th.key with
    | none => simp
    | some fl => by_cases hb : fl &&& LoadedFlagFetching = 0 <;> simp [hb]
  · intro hpc hlive hfree
    refine ⟨by simp [runThread, step, hlive, hth, hpc, lockMu, hfree, State.pcOf, State.put,
      Thread.log], ?_⟩
    rintro habs ⟨f, hf⟩
    simp [runThread, step, hlive, hth, hpc, lockMu, unlockMu, hfree, State.pcOf, State.put,
      Thread.log, Thread.goto, habs, hf, setEntry]
  · intro e hpc
    have hk := run_kept env (OwnOutcome env) (by simp [OwnOutcome, ownFetch])
      (by intro tr h; simpa [OwnOutcome] using h)
      (OwnOutcome_edge env) s0 s
      (by intro u x hx; obtain ⟨h1, h2⟩ := h0 u x hx; rw [h1, h2]; simp [OwnOutcome, ownFetch])
      hrun t th hth
    rcases hk with hk | ⟨-, nx, tr, he, -⟩
    swap
    · rw [hpc] at he; cases he
    · rw [hpc] at hk
      simp only [OwnOutcome] at hk
      rcases hk with ⟨r, hr, he⟩ | ⟨hr, he⟩
      · refine ⟨fun r' hr' => (by rw [hr] at hr'; cases hr'; exact he), ?_⟩
        intro b err hb
        rw [hb] at he
        cases r with
        | ret b0 e0 =>
          cases e0 with
          | none => simp [exitOfFetch] at he
          | some err0 =>
            simp [exitOfFetch] at he
            exact ⟨he.1, b0, err0, hr, he.2⟩
        | panic p => simp [exitOfFetch] at he
      · refine ⟨fun r' hr' => (by rw [hr] at hr'; cases hr'), ?_⟩
        intro b err hb
        rw [hb] at he
        simp at he

theorem NoClaim_wake (g : GuildID) (a : Addr) (k : Key) (th : Thread)
    (h : NoClaim g a k th) : NoClaim g a k (wake th) := by
  rcases wake_cases th with ⟨hp, hw⟩ | ⟨-, hw⟩
  · rw [hw]; simp [NoClaim, Thread.goto, writeZone]
  · rw [hw]; exact h

theorem step_LoadedInv (env : Env B) (g : GuildID) (a : Addr) (k : Key) (fl : LoadedFlags)
    (s s' : State B) (t : Tid) (h : step env s t = some s') (hi : LoadedInv g a k fl s) :
    LoadedInv g a k fl s' := by
  obtain ⟨hg, he, hlt, hth⟩ := hi
  have hothers := step_others env s s' t h
  have hoth : ∀ u, u ≠ t → ∀ x, s'.threads u = some x → NoClaim g a k x := by
    intro u hu x hx
    rcases hothers u hu with ho | ho
    · rw [ho] at hx; exact hth u x hx
    · rw [ho] at hx
      cases hy : s.threads u with
      | none => simp [hy] at hx
      | some y =>
        simp [hy] at hx
        subst hx
        exact NoClaim_wake g a k y (hth u y hy)
  unfold step at h
  split at h
  · simp at h
  · split at h
    · simp at h
    · rename_i th hthr
      have hnc := hth t th hthr
      split at h
      all_goals rename_i hpc
      all_goals (try simp only [lockMu, unlockMu, broadcastBy] at h)
      all_goals (try split at h)
      all_goals (try split at h)
      all_goals (try (simp only [Option.some.injEq] at h))
      all_goals (try (cases h; done))
      all_goals subst h
      all_goals
        have hz := hnc.2
        have h53 := hnc.1
        simp only [hpc, writeZone, true_implies, reduceCtorEq, false_implies] at hz h53
      all_goals
        refine ⟨?_, ?_, ?_, ?_⟩
      all_goals
        first
        | exact hg
        | exact he
        | exact hlt
        | (show Function.update s.loadedGuildFlags th.guildID (some s.nextAddr) g = some a
           rw [Function.update_noteq (Ne.symm h53)]; exact hg)
        | (show Function.update s.stores s.nextAddr (fun _ => none) a k = some fl
           rw [Function.update_noteq (Nat.ne_of_lt hlt)]; exact he)
        | exact Nat.lt_succ_of_lt hlt
        | (show setEntry s.stores th.guildStore th.key _ a k = some fl
           unfold setEntry
           by_cases ha : a = th.guildStore
           · subst ha
             have hk : k ≠ th.key := fun hk => hz ⟨rfl, hk.symm⟩
             rw [Function.update_same, Function.update_noteq hk]; exact he
           · rw [Function.update_noteq ha]; exact he)
        | (intro u x hx
           by_cases hu : u = t
           · subst hu
             simp only [State.put, Function.update_same, Option.some.injEq] at hx
             subst hx
             clear hoth hothers hth hnc
             refine ⟨?_, ?_⟩
             · first
               | (simp [Thread.goto, Thread.log, hpc]; done)
               | (rename_i hnone
                  intro _ hgg
                  simp only [Thread.goto] at hgg
                  rw [hgg, hg] at hnone
                  cases hnone)
             · rintro hw ⟨h1, h2⟩
               try simp only [Thread.goto, Thread.log] at h1 h2 hw
               first
               | exact hz ⟨h1, h2⟩
               | (simp [hpc, writeZone] at hw; done)
               | (rename_i hnone
                  rw [h1, h2, he] at hnone
                  cases hnone)
           · exact hoth u hu x hx)

theorem steps_run (env : Env B) (s0 s : State B) (h : Steps env s0 s) : Run env s0 s := by
  induction h with
  | start => exact Run.start
  | next t _ hs ih => exact Run.next t ih hs

theorem steps_trans (env : Env B) (s0 s1 s2 : State B) (h1 : Steps env s0 s1)
    (h2 : Steps env s1 s2) : Steps env s0 s2 := by
  induction h2 with
  | start => exact h1
  | next t _ hs ih => exact Steps.next t ih hs

theorem exec_steps (env : Env B) (sched : List Tid) (s0 s : State B)
    (h : exec env s0 sched = some s) : Steps env s0 s := by
  induction sched generalizing s0 with
  | nil =>
    simp [exec] at h
    subst h
    exact Steps.start
  | cons t ts ih =>
    simp only [exec] at h
    cases hs : step env s0 t with
    | none => simp [hs] at h
    | some s1 =>
      simp [hs] at h
      exact steps_trans env s0 s1 s (Steps.next t Steps.start hs) (ih s1 h)

theorem runThread_steps (env : Env B) (t : Tid) (n : Nat) (s : State B) :
    Steps env s (runThread env t n s) := by
  induction n generalizing s with
  | zero => exact Steps.start
  | succ n ih =>
    simp only [runThread]
    cases hs : step env s t with
    | none => exact Steps.start
    | some s1 => exact steps_trans env s s1 _ (Steps.next t Steps.start hs) (ih s1)

theorem run_LoadedInv (env : Env B) (g : GuildID) (a : Addr) (k : Key) (fl : LoadedFlags)
    (s0 s : State B) (h0 : LoadedInv g a k fl s0) (hrun : Run env s0 s) :
    LoadedInv g a k fl s := by
  induction hrun with
  | start => exact h0
  | next t _ hs ih => exact step_LoadedInv env g a k fl _ _ t hs ih
  | call t g' k' _ _ ih =>
    obtain ⟨h1, h2, h3, h4⟩ := ih
    refine ⟨h1, h2, h3, ?_⟩
    intro u x hx
    by_cases hu : u = t
    · subst hu
      simp [spawn, State.put] at hx
      subst hx
      simp [NoClaim, newCall, writeZone]
    · simp [spawn, State.put, Function.update, hu] at hx
      exact h4 u x hx

/-- A Loaded entry is kept as long as no claim overlaps it: from a state in which the
pair `(g, k)` has the Loaded entry `fl` and no goroutine is in the middle of a claim on
it or about to replace the inner map of `g` (`NoClaim`), every interleaving of calls
leaves the entry as it is.  The code does not establish `NoClaim`: see
`C9_loaded_entry_dropped`. -/
theorem loaded_kept_without_claim (env : Env B) (s0 s : State B) (g : GuildID) (k : Key)
    (a : Addr) (fl : LoadedFlags)
    (hg : s0.loadedGuildFlags g = some a) (he : s0.stores a k = some fl)
    (hfl : fl &&& LoadedFlagFetching = 0) (halloc : a < s0.nextAddr)
    (h0 : ∀ t th, s0.threads t = some th → NoClaim g a k th)
    (hrun : Run env s0 s) :
    s.entry g k = some fl ∧ fl &&& LoadedFlagFetching = 0 ∧
      s.loadedGuildFlags g = some a ∧ s.stores a k = some fl := by
  obtain ⟨h1, h2, -, -⟩ := run_LoadedInv env g a k fl s0 s ⟨hg, he, halloc, h0⟩ hrun
  exact ⟨by simp [State.entry, h1, h2], hfl, h1, h2⟩

theorem hit_call (env : Env B) (s : State B) (t : Tid) (g : GuildID) (k : Key)
    (a : Addr) (fl : LoadedFlags)
    (hfree : s.locked = false) (hlive : s.fatal = false)
    (hg : s.loadedGuildFlags g = some a) (he : s.stores a k = some fl)
    (hfl : fl &&& LoadedFlagFetching = 0) :
    GetFeatureFlagEnabled env s t g k =
      s.put t { guildID := g, key := k,
                pc := .done (.returned (decide (fl &&& LoadedFlagEnabled ≠ 0)) none),
                guildStore := a, trace := [Ev.lock, Ev.unlock] } := by
  simp [GetFeatureFlagEnabled, runThread, step, spawn, newCall, State.put, lockMu, unlockMu,
    Thread.log, Thread.goto, hfree, hlive, hg, he, hfl]

theorem entry_some (s : State B) (g : GuildID) (k : Key) (fl : LoadedFlags)
    (h : s.entry g k = some fl) :
    ∃ a, s.loadedGuildFlags g = some a ∧ s.stores a k = some fl := by
  unfold State.entry at h
  cases hg : s.loadedGuildFlags g with
  | none => simp [hg] at h
  | some a => exact ⟨a, rfl, by simpa [hg] using h⟩

theorem hit_seq (env : Env B) (g : GuildID) (k : Key) (fl : LoadedFlags) (a : Addr)
    (hfl : fl &&& LoadedFlagFetching = 0) (ts : List Tid) :
    ∀ s : State B, s.locked = false → s.fatal = false → s.loadedGuildFlags g = some a →
      s.stores a k = some fl →
      (callSeq env s (ts.map (fun t => (t, g, k)))).fetchLog = s.fetchLog ∧
      (callSeq env s (ts.map (fun t => (t, g, k)))).backend = s.backend ∧
      (callSeq env s (ts.map (fun t => (t, g, k)))).loadedGuildFlags = s.loadedGuildFlags ∧
      (callSeq env s (ts.map (fun t => (t, g, k)))).stores = s.stores ∧
      (callSeq env s (ts.map (fun t => (t, g, k)))).locked = false ∧
      (callSeq env s (ts.map (fun t => (t, g, k)))).fatal = false ∧
      (∀ t, (t ∈ ts ∨ s.result t =
          some (.returned (decide (fl &&& LoadedFlagEnabled ≠ 0)) none)) →
        (callSeq env s (ts.map (fun t => (t, g, k)))).result t =
          some (.returned (decide (fl &&& LoadedFlagEnabled ≠ 0)) none)) := by
  induction ts with
  | nil =>
    intro s hfree hlive _ _
    simp [callSeq, hfree, hlive]
  | cons t ts ih =>
    intro s hfree hlive hg he
    simp only [List.map_cons, callSeq]
    rw [hit_call env s t g k a fl hfree hlive hg he hfl]
    obtain ⟨h1, h2, h3, h4, h5, h6, h7⟩ := ih (s.put t _) hfree hlive hg he
    refine ⟨h1, h2, h3, h4, h5, h6, ?_⟩
    intro u hu
    apply h7
    by_cases hut : u = t
    · right
      subst hut
      simp [State.result, State.put]
    · rcases hu with hu | hu
      · rcases List.mem_cons.mp hu with h | h
        · exact absurd h hut
        · exact Or.inl h
      · right
        simpa [State.result, State.put, Function.update, hut] using hu

/-- **C3** (idempotent reads after load).  When the pair `(g, k)` is Loaded (entry `fl`
present, Fetching bit clear), the mutex is free and the process alive, the call
`GetFeatureFlagEnabled(g, k)` returns `(fl & LoadedFlagEnabled != 0, nil)`, invokes no
fetch function (fetch log and backend unchanged) and leaves the table unchanged; hence
any number of later calls for the pair return the same value with no fetch, whatever
the registry `env` holds. -/
theorem C3_loaded_reads_are_idempotent (env : Env B) (s : State B) (g : GuildID) (k : Key)
    (fl : LoadedFlags) (t : Tid) (ts : List Tid)
    (hfree : s.locked = false) (hlive : s.fatal = false)
    (hentry : s.entry g k = some fl) (hfl : fl &&& LoadedFlagFetching = 0) :
    ((GetFeatureFlagEnabled env s t g k).result t =
          some (.returned (decide (fl &&& LoadedFlagEnabled ≠ 0)) none) ∧
        (GetFeatureFlagEnabled env s t g k).fetchLog = s.fetchLog ∧
        (GetFeatureFlagEnabled env s t g k).backend = s.backend ∧
        (GetFeatureFlagEnabled env s t g k).loadedGuildFlags = s.loadedGuildFlags ∧
        (GetFeatureFlagEnabled env s t g k).stores = s.stores ∧
        (GetFeatureFlagEnabled env s t g k).nextAddr = s.nextAddr ∧
        (GetFeatureFlagEnabled env s t g k).locked = false ∧
        (GetFeatureFlagEnabled env s t g k).fatal = false) ∧
    ((callSeq env s (ts.map (fun u => (u, g, k)))).fetchLog = s.fetchLog ∧
        (callSeq env s (ts.map (fun u => (u, g, k)))).backend = s.backend ∧
        (callSeq env s (ts.map (fun u => (u, g, k)))).loadedGuildFlags = s.loadedGuildFlags ∧
        (callSeq env s (ts.map (fun u => (u, g, k)))).stores = s.stores ∧
        ∀ u ∈ ts, (callSeq env s (ts.map (fun u => (u, g, k)))).result u =
          some (.returned (decide (fl &&& LoadedFlagEnabled ≠ 0)) none)) := by
  obtain ⟨a, hg, he⟩ := entry_some s g k fl hentry
  constructor
  · rw [hit_call env s t g k a fl hfree hlive hg he hfl]
    simp [State.put, State.result, hfree, hlive]
  · obtain ⟨h1, h2, h3, h4, -, -, h7⟩ := hit_seq env g k fl a hfl ts s hfree hlive hg he
    exact ⟨h1, h2, h3, h4, fun u hu => h7 u (Or.inl hu)⟩

theorem C3_witness :
    ((GetFeatureFlagEnabled demoEnv loadedTable 0 42 1).result 0 =
          some (.returned (decide (LoadedFlagEnabled &&& LoadedFlagEnabled ≠ 0)) none) ∧
        (GetFeatureFlagEnabled demoEnv loadedTable 0 42 1).fetchLog = loadedTable.fetchLog ∧
        (GetFeatureFlagEnabled demoEnv loadedTable 0 42 1).backend = loadedTable.backend ∧
        (GetFeatureFlagEnabled demoEnv loadedTable 0 42 1).loadedGuildFlags =
          loadedTable.loadedGuildFlags ∧
        (GetFeatureFlagEnabled demoEnv loadedTable 0 42 1).stores = loadedTable.stores ∧
        (GetFeatureFlagEnabled demoEnv loadedTable 0 42 1).nextAddr = loadedTable.nextAddr ∧
        (GetFeatureFlagEnabled demoEnv loadedTable 0 42 1).locked = false ∧
        (GetFeatureFlagEnabled demoEnv loadedTable 0 42 1).fatal = false) ∧
    ((callSeq demoEnv loadedTable ([1, 2, 1].map (fun u => (u, 42, 1)))).fetchLog =
          loadedTable.fetchLog ∧
        (callSeq demoEnv loadedTable ([1, 2, 1].map (fun u => (u, 42, 1)))).backend =
          loadedTable.backend ∧
        (callSeq demoEnv loadedTable ([1, 2, 1].map (fun u => (u, 42, 1)))).loadedGuildFlags =
          loadedTable.loadedGuildFlags ∧
        (callSeq demoEnv loadedTable ([1, 2, 1].map (fun u => (u, 42, 1)))).stores =
          loadedTable.stores ∧
        ∀ u ∈ [1, 2, 1],
          (callSeq demoEnv loadedTable ([1, 2, 1].map (fun u => (u, 42, 1)))).result u =
            some (.returned (decide (LoadedFlagEnabled &&& LoadedFlagEnabled ≠ 0)) none)) :=
  C3_loaded_reads_are_idempotent demoEnv loadedTable 42 1 LoadedFlagEnabled 0 [1, 2, 1]
    rfl rfl (by decide) (by decide)

/-- Every cache miss of a call that runs alone ends the process: whatever the registry
holds for the key and whatever the fetch does, the deferred `Unlock` of line 48 runs
on the mutex `fetchFlag` has already released. -/
theorem miss_aborts (env : Env B) (s : State B) (t : Tid) (g : GuildID) (k : Key)
    (hfree : s.locked = false) (hlive : s.fatal = false) (habsent : s.entry g k = none) :
    (GetFeatureFlagEnabled env s t g k).fatal = true ∧
    (GetFeatureFlagEnabled env s t g k).result t = none ∧
    (GetFeatureFlagEnabled env s t g k).locked = false ∧
    ∃ e, (GetFeatureFlagEnabled env s t g k).pcOf t = some (.l48 e) := by
  unfold State.entry at habsent
  cases hg : s.loadedGuildFlags g with
  | none =>
    cases hreg : env.registeredFeatureFlags k with
    | none =>
      simp [GetFeatureFlagEnabled, runThread, step, spawn, newCall, State.put, lockMu, unlockMu,
        broadcastBy, Thread.log, Thread.goto, setEntry, State.result, State.pcOf,
        hfree, hlive, hg, hreg]
    | some f =>
      rcases hf : f s.backend g with ⟨r, bk⟩
      rcases r with ⟨b, _ | err⟩ | p <;>
      simp [GetFeatureFlagEnabled, runThread, step, spawn, newCall, State.put, lockMu, unlockMu,
        broadcastBy, Thread.log, Thread.goto, setEntry, State.result, State.pcOf,
        hfree, hlive, hg, hreg, hf]
  | some a =>
    simp [hg] at habsent
    cases hreg : env.registeredFeatureFlags k with
    | none =>
      simp [GetFeatureFlagEnabled, runThread, step, spawn, newCall, State.put, lockMu, unlockMu,
        broadcastBy, Thread.log, Thread.goto, setEntry, State.result, State.pcOf,
        hfree, hlive, hg, hreg, habsent]
    | some f =>
      rcases hf : f s.backend g with ⟨r, bk⟩
      rcases r with ⟨b, _ | err⟩ | p <;>
      simp [GetFeatureFlagEnabled, runThread, step, spawn, newCall, State.put, lockMu, unlockMu,
        broadcastBy, Thread.log, Thread.goto, setEntry, State.result, State.pcOf,
        hfree, hlive, hg, hreg, hf, habsent]

/-- **C2** (miss then success), evaluated on the empty table with one goroutine calling
`GetFeatureFlagEnabled(42, 1)` and a fetch that returns `(true, nil)`: the fetch is
invoked once and the entry becomes Loaded(true), but the call does not return
`(true, nil)`: its deferred `Unlock` (line 48) finds the mutex already released by
`fetchFlag` (line 115) and the process dies. -/
theorem C2_miss_success_aborts :
    (GetFeatureFlagEnabled demoEnv (emptyState 0) 0 42 1).fatal = true ∧
    (GetFeatureFlagEnabled demoEnv (emptyState 0) 0 42 1).result 0 = none ∧
    (GetFeatureFlagEnabled demoEnv (emptyState 0) 0 42 1).pcOf 0 =
      some (.l48 (.returned true none)) ∧
    (GetFeatureFlagEnabled demoEnv (emptyState 0) 0 42 1).fetchLog = [(0, 42, 1)] ∧
    (GetFeatureFlagEnabled demoEnv (emptyState 0) 0 42 1).entry 42 1 = some LoadedFlagEnabled ∧
    ((GetFeatureFlagEnabled demoEnv (emptyState 0) 0 42 1).threads 0).map (fun th => th.trace) =
      some [Ev.lock, Ev.unlock, Ev.fetchCall, Ev.fetchRet (.ret true none), Ev.lock, Ev.unlock,
        Ev.unlock] := by
  decide

/-- **C1** (single-flight) fails as stated: with two concurrent callers of the pair
`(7, 2)` and a fetch that fails the first time, the fetch function of the pair is
invoked twice (the waiter retries after the failure). -/
theorem C1_counterexample :
    (exec demoEnv (callers (emptyState 0) 2 7 2) retrySchedule).map
        (fun s => (s.fetchLog, s.fatal, s.pcOf 0, s.pcOf 1)) =
      some ([(0, 7, 2), (1, 7, 2)], false,
        some (.l48 (.returned false (some 1005))), some .inFetch) := by
  decide

/-- **C8** (Fetching invariant), evaluated on three goroutines: the unbalanced deferred
`Unlock` of goroutine 0 releases the mutex that goroutine 1 holds, so goroutines 1 and
2 both read the pair `(2, 1)` as absent and both claim it: goroutine 1 stands before
its store (line 114) while goroutine 2 is inside the fetch, and the fetch function of
the pair has been invoked twice. -/
theorem C8_two_claims_in_flight :
    (exec demoEnv threeCallers stolenLockSchedule).map (fun s => (s.pcOf 1, s.pcOf 2)) =
      some (some (.l114 true), some .inFetch) ∧
    (exec demoEnv threeCallers stolenLockSchedule).map (fun s => (s.fatal, s.fetchLog)) =
      some (false, [(0, 1, 1), (1, 2, 1), (2, 2, 1)]) ∧
    (exec demoEnv threeCallers stolenLockSchedule).map (fun s => s.entry 2 1) =
      some (some LoadedFlagFetching) := by
  decide

/-- **C4** (retry after failure), evaluated on the empty table with a fetch that fails
first and succeeds afterwards: the first `GetFeatureFlagEnabled(7, 2)` deletes the
entry in its cleanup but then dies in the deferred `Unlock` of line 48 instead of
reporting the error; the process is dead, so a second call does not take a step and
no second fetch happens. -/
theorem C4_failed_miss_aborts :
    (GetFeatureFlagEnabled demoEnv (emptyState 0) 0 7 2).fatal = true ∧
    (GetFeatureFlagEnabled demoEnv (emptyState 0) 0 7 2).result 0 = none ∧
    (GetFeatureFlagEnabled demoEnv (emptyState 0) 0 7 2).entry 7 2 = none ∧
    (GetFeatureFlagEnabled demoEnv (emptyState 0) 0 7 2).fetchLog = [(0, 7, 2)] ∧
    (GetFeatureFlagEnabled demoEnv
      (GetFeatureFlagEnabled demoEnv (emptyState 0) 0 7 2) 1 7 2).result 1 = none ∧
    (GetFeatureFlagEnabled demoEnv
      (GetFeatureFlagEnabled demoEnv (emptyState 0) 0 7 2) 1 7 2).pcOf 1 = some .l47 ∧
    (GetFeatureFlagEnabled demoEnv
      (GetFeatureFlagEnabled demoEnv (emptyState 0) 0 7 2) 1 7 2).fetchLog = [(0, 7, 2)] := by
  decide

/-- **C5** (error propagation), evaluated on the empty table with a fetch that returns
`(true, err 9)`: `fetchFlag` hands back `(false, WithStackIf(err 9))`, but
`GetFeatureFlagEnabled` does not return it: the deferred `Unlock` of line 48 ends the
process. -/
theorem C5_error_miss_aborts :
    (GetFeatureFlagEnabled demoEnv (emptyState 0) 0 42 3).fatal = true ∧
    (GetFeatureFlagEnabled demoEnv (emptyState 0) 0 42 3).result 0 = none ∧
    (GetFeatureFlagEnabled demoEnv (emptyState 0) 0 42 3).pcOf 0 =
      some (.l48 (.returned false (some (demoEnv.withStackIf 9)))) := by
  decide

/-- **C6** (abnormal termination), evaluated on the empty table with a fetch that
panics: the deferred cleanup of `fetchFlag` deletes the entry and releases the mutex,
but the panic does not reach the caller: while it unwinds, the deferred `Unlock` of
line 48 ends the process with the fatal unlock error. -/
theorem C6_panic_miss_aborts :
    (GetFeatureFlagEnabled demoEnv (emptyState 0) 0 42 4).fatal = true ∧
    (GetFeatureFlagEnabled demoEnv (emptyState 0) 0 42 4).result 0 = none ∧
    (GetFeatureFlagEnabled demoEnv (emptyState 0) 0 42 4).pcOf 0 =
      some (.l48 (.panicked (.raised 13))) ∧
    (GetFeatureFlagEnabled demoEnv (emptyState 0) 0 42 4).entry 42 4 = none ∧
    (GetFeatureFlagEnabled demoEnv (emptyState 0) 0 42 4).locked = false := by
  decide

theorem callers_thread (s : State B) (N : Nat) (g : GuildID) (k : Key) (t : Tid) (th : Thread)
    (h : (callers s N g k).threads t = some th) : th = newCall g k := by
  simp only [callers] at h
  split at h
  · exact (Option.some.inj h).symm
  · cases h

theorem C7_witness :
    holdsMutex inFetchThread.trace = false ∧ balance inFetchThread.trace = 0 ∧
      (inFetchThread.pc = .l101 → ∃ tr0, inFetchThread.trace = tr0 ++ [Ev.unlock]) ∧
      (inFetchThread.pc = .inFetch →
        ∃ tr0, inFetchThread.trace = tr0 ++ [Ev.unlock, Ev.fetchCall]) :=
  C7_mutex_not_held_during_fetch demoEnv (callers (emptyState 0) 1 42 1)
    (runThread demoEnv 0 7 (callers (emptyState 0) 1 42 1))
    (fun t th h => by rw [callers_thread _ _ _ _ t th h]; exact ⟨rfl, rfl⟩)
    (steps_run _ _ _ (runThread_steps demoEnv 0 7 _))
    0 inFetchThread (by rfl) (Or.inr rfl)

theorem loaded_kept_example :
    afterHitAndMiss.entry 42 1 = some LoadedFlagEnabled ∧
      LoadedFlagEnabled &&& LoadedFlagFetching = 0 ∧
      afterHitAndMiss.loadedGuildFlags 42 = some 0 ∧
      afterHitAndMiss.stores 0 1 = some LoadedFlagEnabled :=
  loaded_kept_without_claim demoEnv (spawn (spawn loadedTable 0 42 1) 1 7 2) afterHitAndMiss
    42 1 0 LoadedFlagEnabled (by decide) (by decide) (by decide) (by decide)
    (fun t th h => by
      by_cases h1 : t = 1
      · subst h1
        simp [spawn, State.put] at h
        subst h
        simp [NoClaim, newCall, writeZone]
      · by_cases h0 : t = 0
        · subst h0
          simp [spawn, State.put, Function.update] at h
          subst h
          simp [NoClaim, newCall, writeZone]
        · simp [spawn, State.put, Function.update, h1, h0, loadedTable, idle] at h)
    (steps_run _ _ _ (steps_trans _ _ _ _ (runThread_steps demoEnv 0 16 _)
      (runThread_steps demoEnv 1 16 _)))

theorem C10_witness :
    (wokenThread.pc = .l59 → afterFailedFetch.fatal = false →
      step demoEnv afterFailedFetch 1 = some (afterFailedFetch.put 1 (wokenThread.goto
        (match afterFailedFetch.stores wokenThread.guildStore wokenThread.key with
          | some flags =>
            if flags &&& LoadedFlagFetching ≠ 0 then .l63
            else .l48 (.returned (decide (flags &&& LoadedFlagEnabled ≠ 0)) none)
          | none => .l72)))) ∧
    (wokenThread.pc = .woken → afterFailedFetch.fatal = false →
      afterFailedFetch.locked = false →
      (runThread demoEnv 1 1 afterFailedFetch).pcOf 1 = some .l59 ∧
      (afterFailedFetch.stores wokenThread.guildStore wokenThread.key = none →
        (∃ f, demoEnv.registeredFeatureFlags wokenThread.key = some f) →
        (runThread demoEnv 1 5 afterFailedFetch).pcOf 1 = some .inFetch ∧
        (runThread demoEnv 1 5 afterFailedFetch).stores wokenThread.guildStore
          wokenThread.key = some LoadedFlagFetching ∧
        (runThread demoEnv 1 5 afterFailedFetch).fetchLog =
          afterFailedFetch.fetchLog ++ [(1, wokenThread.guildID, wokenThread.key)])) ∧
    (∀ e, wokenThread.pc = .done e →
      (∀ r, ownFetch wokenThread.trace = some r → e = exitOfFetch demoEnv r) ∧
      (∀ b err, e = .returned b (some err) →
        b = false ∧ ∃ b0 err0, ownFetch wokenThread.trace = some (.ret b0 (some err0)) ∧
          err = demoEnv.withStackIf err0)) :=
  C10_waiters_retry_independently demoEnv (callers (emptyState 0) 2 7 2) afterFailedFetch
    (fun t th h => by rw [callers_thread _ _ _ _ t th h]; exact ⟨rfl, rfl⟩)
    (steps_run _ _ _ (steps_trans _ _ _ _ (steps_trans _ _ _ _
      (runThread_steps demoEnv 0 7 _) (runThread_steps demoEnv 1 4 _))
      (runThread_steps demoEnv 0 5 _)))
    1 wokenThread (by rfl)

theorem update_forall (P : Tid → Thread → Prop) (thr : Tid → Option Thread) (t : Tid)
    (th' : Thread) (hnew : P t th')
    (hold : ∀ u x, u ≠ t → thr u = some x → P u x) :
    ∀ u x, Function.update thr t (some th') u = some x → P u x := by
  intro u x hx
  by_cases hu : u = t
  · subst hu
    rw [Function.update_same] at hx
    cases hx
    exact hnew
  · rw [Function.update_noteq hu] at hx
    exact hold u x hu hx

theorem waiterOK_wake (a : Addr) (th : Thread) (h : waiterOK a th) : waiterOK a (wake th) := by
  rcases wake_cases th with ⟨hp, hw⟩ | ⟨-, hw⟩
  · rw [hw]
    rcases h with h | h | ⟨-, h⟩
    · rw [hp] at h; cases h
    · rw [hp] at h; cases h
    · exact Or.inr (Or.inr ⟨by simp [Thread.goto], h⟩)
  · rw [hw]; exact h

theorem ThreadOK_wake (g : GuildID) (k : Key) (b : Bool) (ph : Phase) (t : Tid) (th : Thread)
    (h : ThreadOK g k b ph t th) : ThreadOK g k b ph t (wake th) := by
  rcases wake_cases th with ⟨hp, hw⟩ | ⟨-, hw⟩
  · rw [hw]
    obtain ⟨h1, h2, h3⟩ := h
    refine ⟨h1, h2, ?_⟩
    cases ph <;> simp [hp, waiterOK, Thread.goto] at h3 ⊢ <;> exact h3
  · rw [hw]; exact h

theorem loadedValue_read (b : Bool) :
    loadedValue b &&& LoadedFlagFetching = 0 ∧
      decide (loadedValue b &&& LoadedFlagEnabled ≠ 0) = b := by
  cases b <;> decide

theorem step_loaded (env : Env B) (g : GuildID) (k : Key) (b : Bool) (a : Addr)
    (s s' : State B) (t : Tid) (h : step env s t = some s')
    (hG : GlobalOK g k b (.loaded a) s)
    (hT : ∀ t th, s.threads t = some th → ThreadOK g k b (.loaded a) t th) :
    GlobalOK g k b (.loaded a) s' ∧
      ∀ t th, s'.threads t = some th → ThreadOK g k b (.loaded a) t th := by
  obtain ⟨hg, he, hlog⟩ := hG
  unfold step at h
  split at h
  · simp at h
  · split at h
    · simp at h
    · rename_i th hth
      obtain ⟨hgid, hkey, hpcs⟩ := hT t th hth
      simp only at hpcs
      have hkeep : ∀ u x, u ≠ t → s.threads u = some x → ThreadOK g k b (.loaded a) u x :=
        fun u x _ hx => hT u x hx
      rcases hpcs with (hpc | hpc | ⟨hpc | hpc | hpc | hpc, hgs⟩) | hpc | hpc | hpc | hpc
      · -- line 47
        simp only [hpc, lockMu] at h
        split at h
        · cases h
        · cases h
          exact ⟨⟨hg, he, hlog⟩, update_forall _ _ _ _
            ⟨hgid, hkey, Or.inl (Or.inr (Or.inl rfl))⟩ hkeep⟩
      · -- line 51
        simp only [hpc, hgid, hg] at h
        cases h
        exact ⟨⟨hg, he, hlog⟩, update_forall _ _ _ _
          ⟨rfl, hkey, Or.inl (Or.inr (Or.inr ⟨Or.inl rfl, rfl⟩))⟩ hkeep⟩
      · -- line 59
        simp only [hpc, hgs, hkey, he, (loadedValue_read b).1, (loadedValue_read b).2] at h
        simp at h
        cases h
        exact ⟨⟨hg, he, hlog⟩, update_forall _ _ _ _
          ⟨hgid, hkey, Or.inr (Or.inr (Or.inr (Or.inl rfl)))⟩ hkeep⟩
      · -- line 63
        simp only [hpc, unlockMu] at h
        split at h
        · cases h
          exact ⟨⟨hg, he, hlog⟩, update_forall _ _ _ _
            ⟨hgid, hkey, Or.inl (Or.inr (Or.inr ⟨Or.inr (Or.inr (Or.inl rfl)), hgs⟩))⟩ hkeep⟩
        · cases h
          exact ⟨⟨hg, he, hlog⟩, update_forall _ _ _ _
            ⟨hgid, hkey, Or.inl (Or.inr (Or.inr ⟨Or.inr (Or.inl rfl), hgs⟩))⟩ hkeep⟩
      · -- parked
        simp [hpc] at h
      · -- woken
        simp only [hpc, lockMu] at h
        split at h
        · cases h
        · cases h
          exact ⟨⟨hg, he, hlog⟩, update_forall _ _ _ _
            ⟨hgid, hkey, Or.inl (Or.inr (Or.inr ⟨Or.inl rfl, hgs⟩))⟩ hkeep⟩
      · -- line 115
        simp only [hpc, unlockMu] at h
        split at h
        · cases h
          exact ⟨⟨hg, he, hlog⟩, update_forall _ _ _ _
            ⟨hgid, hkey, Or.inr (Or.inr (Or.inl rfl))⟩ hkeep⟩
        · cases h
          exact ⟨⟨hg, he, hlog⟩, update_forall _ _ _ _
            ⟨hgid, hkey, Or.inr (Or.inl rfl)⟩ hkeep⟩
      · -- line 116
        simp only [hpc, broadcastBy] at h
        cases h
        refine ⟨⟨hg, he, hlog⟩, update_forall _ _ _ _
          ⟨hgid, hkey, Or.inr (Or.inr (Or.inr (Or.inl rfl)))⟩ ?_⟩
        intro u x _ hx
        cases hy : s.threads u with
        | none => simp [hy] at hx
        | some y =>
          simp [hy] at hx
          subst hx
          exact ThreadOK_wake g k b _ u y (hT u y hy)
      · -- line 48
        simp only [hpc, unlockMu] at h
        split at h
        · cases h
          exact ⟨⟨hg, he, hlog⟩, update_forall _ _ _ _
            ⟨hgid, hkey, Or.inr (Or.inr (Or.inr (Or.inr rfl)))⟩ hkeep⟩
        · cases h
          exact ⟨⟨hg, he, hlog⟩, update_forall _ _ _ _
            ⟨hgid, hkey, Or.inr (Or.inr (Or.inr (Or.inl rfl)))⟩ hkeep⟩
      · -- done
        simp [hpc] at h


theorem step_fetching (env : Env B) (g : GuildID) (k : Key) (b : Bool)
    (f : B → GuildID → FetchResult × B) (hreg : env.registeredFeatureFlags k = some f)
    (hok : ∀ bk, (f bk g).1 = .ret b none) (a : Addr) (F : Tid) (called : Bool)
    (s s' : State B) (t : Tid) (h : step env s t = some s')
    (hG : GlobalOK g k b (.fetching a F called) s)
    (hT : ∀ t th, s.threads t = some th → ThreadOK g k b (.fetching a F called) t th) :
    SingleFlight g k b s' := by
  obtain ⟨hg, he, hlog⟩ := hG
  unfold step at h
  split at h
  · simp at h
  · split at h
    · simp at h
    · rename_i th hth
      obtain ⟨hgid, hkey, hpcs⟩ := hT t th hth
      simp only at hpcs
      have hkeep : ∀ u x, u ≠ t → s.threads u = some x →
          ThreadOK g k b (.fetching a F called) u x :=
        fun u x _ hx => hT u x hx
      have hFetching : LoadedFlagFetching &&& LoadedFlagFetching ≠ 0 := by decide
      rcases hpcs with ⟨htF, hpc | hpc | ⟨hpc | hpc | hpc | hpc, hgs⟩⟩ |
        ⟨htF, hgs, ⟨hc, hpc | hpc⟩ | ⟨hc, hpc | hpc | hpc⟩⟩
      · -- waiter, line 47
        simp only [hpc, lockMu] at h
        split at h
        · cases h
        · cases h
          exact ⟨.fetching a F called, ⟨hg, he, hlog⟩, update_forall _ _ _ _
            ⟨hgid, hkey, Or.inl ⟨htF, Or.inr (Or.inl rfl)⟩⟩ hkeep⟩
      · -- waiter, line 51
        simp only [hpc, hgid, hg] at h
        cases h
        exact ⟨.fetching a F called, ⟨hg, he, hlog⟩, update_forall _ _ _ _
          ⟨rfl, hkey, Or.inl ⟨htF, Or.inr (Or.inr ⟨Or.inl rfl, rfl⟩)⟩⟩ hkeep⟩
      · -- waiter, line 59
        simp only [hpc, hgs, hkey, he, hFetching] at h
        simp at h
        cases h
        exact ⟨.fetching a F called, ⟨hg, he, hlog⟩, update_forall _ _ _ _
          ⟨hgid, hkey, Or.inl ⟨htF, Or.inr (Or.inr ⟨Or.inr (Or.inl rfl), hgs⟩)⟩⟩ hkeep⟩
      · -- waiter, line 63
        simp only [hpc, unlockMu] at h
        split at h
        · cases h
          exact ⟨.fetching a F called, ⟨hg, he, hlog⟩, update_forall _ _ _ _
            ⟨hgid, hkey, Or.inl ⟨htF, Or.inr (Or.inr ⟨Or.inr (Or.inr (Or.inl rfl)), hgs⟩)⟩⟩
            hkeep⟩
        · cases h
          exact ⟨.fetching a F called, ⟨hg, he, hlog⟩, update_forall _ _ _ _
            ⟨hgid, hkey, Or.inl ⟨htF, Or.inr (Or.inr ⟨Or.inr (Or.inl rfl), hgs⟩)⟩⟩ hkeep⟩
      · -- waiter, parked
        simp [hpc] at h
      · -- waiter, woken
        simp only [hpc, lockMu] at h
        split at h
        · cases h
        · cases h
          exact ⟨.fetching a F called, ⟨hg, he, hlog⟩, update_forall _ _ _ _
            ⟨hgid, hkey, Or.inl ⟨htF, Or.inr (Or.inr ⟨Or.inl rfl, hgs⟩)⟩⟩ hkeep⟩
      · -- fetcher, line 84
        simp only [hpc, unlockMu] at h
        split at h
        · cases h
          exact ⟨.fetching a F called, ⟨hg, he, hlog⟩, update_forall _ _ _ _
            ⟨hgid, hkey, Or.inr ⟨htF, hgs, Or.inl ⟨hc, Or.inr rfl⟩⟩⟩ hkeep⟩
        · cases h
          exact ⟨.fetching a F called, ⟨hg, he, hlog⟩, update_forall _ _ _ _
            ⟨hgid, hkey, Or.inr ⟨htF, hgs, Or.inl ⟨hc, Or.inl rfl⟩⟩⟩ hkeep⟩
      · -- fetcher, line 101
        simp only [hpc, hkey, hreg] at h
        cases h
        subst hc
        refine ⟨.fetching a F true, ⟨hg, he, ?_⟩, update_forall _ _ _ _
            ⟨hgid, hkey, Or.inr ⟨htF, hgs, Or.inr ⟨rfl, Or.inl rfl⟩⟩⟩ ?_⟩
        · simp at hlog
          simp [hlog, State.put]
        · intro u x hu hx
          obtain ⟨h1, h2, h3⟩ := hT u x hx
          refine ⟨h1, h2, ?_⟩
          rcases h3 with h3 | ⟨h3, -⟩
          · exact Or.inl h3
          · exact absurd (h3.trans htF.symm) hu
      · -- fetcher, inside the fetch
        have hres : f s.backend g = (.ret b none, (f s.backend g).2) :=
          Prod.ext (hok _) rfl
        simp only [hpc, hkey, hreg, hgid] at h
        rw [hres] at h
        simp only at h
        cases h
        exact ⟨.fetching a F called, ⟨hg, he, hlog⟩, update_forall _ _ _ _
          ⟨hgid, hkey, Or.inr ⟨htF, hgs, Or.inr ⟨hc, Or.inr (Or.inl rfl)⟩⟩⟩ hkeep⟩
      · -- fetcher, line 113
        simp only [hpc, lockMu] at h
        split at h
        · cases h
        · cases h
          exact ⟨.fetching a F called, ⟨hg, he, hlog⟩, update_forall _ _ _ _
            ⟨hgid, hkey, Or.inr ⟨htF, hgs, Or.inr ⟨hc, Or.inr (Or.inr rfl)⟩⟩⟩ hkeep⟩
      · -- fetcher, line 114
        simp only [hpc, hgs, hkey] at h
        cases h
        subst hc
        refine ⟨.loaded a, ⟨hg, ?_, by simpa using hlog⟩, update_forall _ _ _ _
            ⟨hgid, hkey, Or.inr (Or.inl rfl)⟩ ?_⟩
        · simp [State.put, setEntry]
        · intro u x hu hx
          obtain ⟨h1, h2, h3⟩ := hT u x hx
          refine ⟨h1, h2, ?_⟩
          rcases h3 with h3 | ⟨h3, -⟩
          · exact Or.inl h3.2
          · exact absurd (h3.trans htF.symm) hu


theorem step_unclaimed (env : Env B) (g : GuildID) (k : Key) (b : Bool)
    (L : Option Tid) (st : Option Addr)
    (s s' : State B) (t : Tid) (h : step env s t = some s')
    (hG : GlobalOK g k b (.unclaimed L st) s)
    (hT : ∀ t th, s.threads t = some th → ThreadOK g k b (.unclaimed L st) t th) :
    SingleFlight g k b s' := by
  obtain ⟨hlog, hlocked, hg, he⟩ := hG
  unfold step at h
  split at h
  · simp at h
  · split at h
    · simp at h
    · rename_i th hth
      obtain ⟨hgid, hkey, hpcs⟩ := hT t th hth
      simp only at hpcs
      have hothers : ∀ u x, u ≠ t → s.threads u = some x → L = some t →
          x.guildID = g ∧ x.key = k ∧ x.pc = .l47 := by
        intro u x hu hx hL
        obtain ⟨h1, h2, h3⟩ := hT u x hx
        refine ⟨h1, h2, ?_⟩
        rcases h3 with ⟨-, h3⟩ | ⟨h3, -⟩
        · exact h3
        · rw [hL] at h3
          exact absurd (Option.some.inj h3).symm hu
      rcases hpcs with ⟨hL, hpc⟩ | ⟨hL, hpc | ⟨hpc, hst⟩ | ⟨hpc | hpc, hst⟩⟩
      · -- line 47
        simp only [hpc, lockMu] at h
        split at h
        · cases h
        · rename_i hfree
          cases h
          have hLn : L = none := by
            cases L with
            | none => rfl
            | some l => simp [hlocked] at hfree
          subst hLn
          refine ⟨.unclaimed (some t) st, ⟨hlog, rfl, hg, he⟩, update_forall _ _ _ _
            ⟨hgid, hkey, Or.inr ⟨rfl, Or.inl rfl⟩⟩ ?_⟩
          intro u x hu hx
          obtain ⟨h1, h2, h3⟩ := hT u x hx
          refine ⟨h1, h2, Or.inl ⟨fun hc => hu (Option.some.inj hc).symm, ?_⟩⟩
          rcases h3 with ⟨-, h3⟩ | ⟨h3, -⟩
          · exact h3
          · cases h3
      · -- line 51
        have hkeep : ∀ u x, u ≠ t → s.threads u = some x →
            ThreadOK g k b (.unclaimed L st) u x := fun u x _ hx => hT u x hx
        simp only [hpc, hgid, hg] at h
        cases st with
        | none =>
          simp only at h
          cases h
          exact ⟨.unclaimed L none, ⟨hlog, hlocked, hg, he⟩, update_forall _ _ _ _
            ⟨hgid, hkey, Or.inr ⟨hL, Or.inr (Or.inl ⟨rfl, rfl⟩)⟩⟩ hkeep⟩
        | some a =>
          simp only at h
          cases h
          exact ⟨.unclaimed L (some a), ⟨hlog, hlocked, hg, he⟩, update_forall _ _ _ _
            ⟨rfl, hkey, Or.inr ⟨hL, Or.inr (Or.inr ⟨Or.inl rfl, rfl⟩)⟩⟩ hkeep⟩
      · -- line 53
        simp only [hpc] at h
        cases h
        subst hst
        refine ⟨.unclaimed L (some s.nextAddr), ⟨hlog, hlocked, ?_, ?_⟩, update_forall _ _ _ _
            ⟨hgid, hkey, Or.inr ⟨hL, Or.inr (Or.inr ⟨Or.inl rfl, rfl⟩)⟩⟩ ?_⟩
        · simp [State.put, hgid]
        · intro a ha
          cases ha
          simp [State.put]
        · intro u x hu hx
          obtain ⟨h1, h2, h3⟩ := hothers u x hu hx hL
          exact ⟨h1, h2, Or.inl ⟨fun hc => hu (by rw [hL] at hc; exact (Option.some.inj hc).symm), h3⟩⟩
      · -- line 59
        have hkeep : ∀ u x, u ≠ t → s.threads u = some x →
            ThreadOK g k b (.unclaimed L st) u x := fun u x _ hx => hT u x hx
        simp only [hpc, hkey, he _ hst] at h
        cases h
        exact ⟨.unclaimed L st, ⟨hlog, hlocked, hg, he⟩, update_forall _ _ _ _
          ⟨hgid, hkey, Or.inr ⟨hL, Or.inr (Or.inr ⟨Or.inr rfl, hst⟩)⟩⟩ hkeep⟩
      · -- line 72
        simp only [hpc, hkey] at h
        cases h
        refine ⟨.fetching th.guildStore t false, ⟨by rw [← hst]; exact hg, ?_, by simp [State.put, hlog]⟩,
          update_forall _ _ _ _
            ⟨hgid, hkey, Or.inr ⟨rfl, rfl, Or.inl ⟨rfl, Or.inl rfl⟩⟩⟩ ?_⟩
        · simp [State.put, setEntry]
        · intro u x hu hx
          obtain ⟨h1, h2, h3⟩ := hothers u x hu hx hL
          exact ⟨h1, h2, Or.inl ⟨hu, Or.inl h3⟩⟩

theorem steps_SingleFlight (env : Env B) (g : GuildID) (k : Key) (b : Bool)
    (f : B → GuildID → FetchResult × B) (hreg : env.registeredFeatureFlags k = some f)
    (hok : ∀ bk, (f bk g).1 = .ret b none) (s0 s : State B)
    (h0 : SingleFlight g k b s0) (hsteps : Steps env s0 s) : SingleFlight g k b s := by
  induction hsteps with
  | start => exact h0
  | next t _ hs ih =>
    obtain ⟨ph, hG, hT⟩ := ih
    cases ph with
    | unclaimed L st => exact step_unclaimed env g k b L st _ _ t hs hG hT
    | fetching a F called => exact step_fetching env g k b f hreg hok a F called _ _ t hs hG hT
    | loaded a => exact ⟨.loaded a, step_loaded env g k b a _ _ t hs hG hT⟩

theorem callers_SingleFlight (g : GuildID) (k : Key) (b : Bool) (N : Nat) (s0 : State B)
    (hfree : s0.locked = false) (hlog : s0.fetchLog = []) (habsent : s0.entry g k = none) :
    SingleFlight g k b (callers s0 N g k) := by
  refine ⟨.unclaimed none (s0.loadedGuildFlags g), ⟨hlog, hfree, rfl, ?_⟩, ?_⟩
  · intro a ha
    simpa [State.entry, ha] using habsent
  · intro t th hth
    rw [callers_thread _ _ _ _ t th hth]
    exact ⟨rfl, rfl, Or.inl ⟨by simp, rfl⟩⟩

/-- **C1** (single-flight, amended).  For every `N` and every pair `(g, k)` without an
entry, when `N` goroutines call `GetFeatureFlagEnabled(g, k)` concurrently and every
invocation of the registered fetch returns `(b, nil)`, then in every state of every
interleaving the fetch function has been invoked at most once, and every call that has
returned has returned `(b, nil)`, the fetch having then been invoked exactly once. -/
theorem C1_single_flight_when_fetch_succeeds (env : Env B) (N : Nat) (g : GuildID) (k : Key)
    (b : Bool) (f : B → GuildID → FetchResult × B)
    (hreg : env.registeredFeatureFlags k = some f) (hok : ∀ bk, (f bk g).1 = .ret b none)
    (s0 : State B) (hfree : s0.locked = false) (hlog : s0.fetchLog = [])
    (habsent : s0.entry g k = none)
    (s : State B) (hsteps : Steps env (callers s0 N g k) s) (t : Tid) (e : Exit) :
    s.fetchLog.length ≤ 1 ∧
      (s.result t = some e → e = .returned b none ∧ s.fetchLog.length = 1) := by
  obtain ⟨ph, hG, hT⟩ := steps_SingleFlight env g k b f hreg hok _ s
    (callers_SingleFlight g k b N s0 hfree hlog habsent) hsteps
  constructor
  · cases ph with
    | unclaimed L st => simp [hG.1]
    | fetching a F called =>
      rw [hG.2.2]
      split <;> simp
    | loaded a => simp [hG.2.2]
  · intro hres
    unfold State.result at hres
    cases hth : s.threads t with
    | none => simp [hth] at hres
    | some th =>
      simp only [hth] at hres
      obtain ⟨-, -, hpcs⟩ := hT t th hth
      cases ph with
      | unclaimed L st =>
        simp only at hpcs
        rcases hpcs with ⟨-, hpc⟩ | ⟨-, hpc | ⟨hpc, -⟩ | ⟨hpc | hpc, -⟩⟩ <;>
          simp [hpc] at hres
      | fetching a F called =>
        simp only [waiterOK] at hpcs
        rcases hpcs with ⟨-, hpc | hpc | ⟨hpc | hpc | hpc | hpc, -⟩⟩ |
          ⟨-, -, ⟨-, hpc | hpc⟩ | ⟨-, hpc | hpc | hpc⟩⟩ <;>
          simp [hpc] at hres
      | loaded a =>
        simp only [waiterOK] at hpcs
        rcases hpcs with (hpc | hpc | ⟨hpc | hpc | hpc | hpc, -⟩) | hpc | hpc | hpc | hpc <;>
          simp [hpc] at hres
        exact ⟨hres.symm, hG.2.2⟩

theorem C1_witness :
    afterStolenReturn.fetchLog.length ≤ 1 ∧
      (afterStolenReturn.result 0 = some (.returned true none) →
        Exit.returned true none = .returned true none ∧ afterStolenReturn.fetchLog.length = 1) :=
  C1_single_flight_when_fetch_succeeds demoEnv 2 42 1 true
    (fun n _ => (FetchResult.ret true none, n)) rfl (fun _ => rfl)
    (emptyState 0) rfl rfl rfl afterStolenReturn
    (steps_trans _ _ _ _ (steps_trans _ _ _ _
      (runThread_steps demoEnv 0 12 _) (runThread_steps demoEnv 1 1 _))
      (runThread_steps demoEnv 0 1 _))
    0 (.returned true none)

/-- **C12** (lock balance), evaluated for one goroutine: on the hit path the mutex
operations are `Lock, Unlock`; on each miss path (fetch success, fetch error, fetch
panic) they are `Lock, Unlock, Lock, Unlock, Unlock`: three unlocks for two locks,
the last one (the deferred `Unlock` of line 48) on a mutex the goroutine does not hold,
which ends the process. -/
theorem C12_miss_unlocks_twice :
    ((GetFeatureFlagEnabled demoEnv loadedTable 0 42 1).threads 0).map
        (fun th => (th.trace, balance th.trace)) = some ([Ev.lock, Ev.unlock], 0) ∧
    (GetFeatureFlagEnabled demoEnv loadedTable 0 42 1).fatal = false ∧
    ((GetFeatureFlagEnabled demoEnv (emptyState 0) 0 42 1).threads 0).map
        (fun th => (th.trace.filter (fun e => e = Ev.lock ∨ e = Ev.unlock), balance th.trace)) =
      some ([Ev.lock, Ev.unlock, Ev.lock, Ev.unlock, Ev.unlock], -1) ∧
    (GetFeatureFlagEnabled demoEnv (emptyState 0) 0 42 1).fatal = true ∧
    ((GetFeatureFlagEnabled demoEnv (emptyState 0) 0 7 2).threads 0).map
        (fun th => (th.trace.filter (fun e => e = Ev.lock ∨ e = Ev.unlock), balance th.trace)) =
      some ([Ev.lock, Ev.unlock, Ev.lock, Ev.unlock, Ev.unlock], -1) ∧
    (GetFeatureFlagEnabled demoEnv (emptyState 0) 0 7 2).fatal = true ∧
    ((GetFeatureFlagEnabled demoEnv (emptyState 0) 0 42 4).threads 0).map
        (fun th => (th.trace.filter (fun e => e = Ev.lock ∨ e = Ev.unlock), balance th.trace)) =
      some ([Ev.lock, Ev.unlock, Ev.lock, Ev.unlock, Ev.unlock], -1) ∧
    (GetFeatureFlagEnabled demoEnv (emptyState 0) 0 42 4).fatal = true := by
  decide

theorem NilOnly_wake (th : Thread) (h : NilOnly th.pc) : NilOnly (wake th).pc := by
  rcases wake_cases th with ⟨-, hw⟩ | ⟨-, hw⟩
  · rw [hw]; simp [Thread.goto, NilOnly]
  · rw [hw]; exact h

theorem wake_key (th : Thread) : (wake th).key = th.key := by
  rcases wake_cases th with ⟨-, hw⟩ | ⟨-, hw⟩
  · rw [hw]; rfl
  · rw [hw]

theorem setEntry_other_key (stores : Addr → Key → Option LoadedFlags) (a a' : Addr)
    (k k' : Key) (v : Option LoadedFlags) (h : k ≠ k') :
    setEntry stores a' k' v a k = stores a k := by
  unfold setEntry
  by_cases ha : a = a'
  · subst ha
    rw [Function.update_same, Function.update_noteq h]
  · rw [Function.update_noteq ha]

theorem step_NeverLoads (env : Env B) (k : Key) (hunreg : env.registeredFeatureFlags k = none)
    (s s' : State B) (t : Tid) (h : step env s t = some s') (hi : NeverLoads k s) :
    NeverLoads k s' := by
  obtain ⟨hst, hth⟩ := hi
  have hothers := step_others env s s' t h
  have hoth : ∀ u, u ≠ t → ∀ x, s'.threads u = some x → x.key = k → NilOnly x.pc := by
    intro u hu x hx hk
    rcases hothers u hu with ho | ho
    · rw [ho] at hx; exact hth u x hx hk
    · rw [ho] at hx
      cases hy : s.threads u with
      | none => simp [hy] at hx
      | some y =>
        simp [hy] at hx
        subst hx
        rw [wake_key] at hk
        exact NilOnly_wake y (hth u y hy hk)
  unfold step at h
  split at h
  · simp at h
  · split at h
    · simp at h
    · rename_i th hthr
      have hnil := hth t th hthr
      have hnil0 := hth t th hthr
      split at h
      all_goals rename_i hpc
      all_goals (try simp only [lockMu, unlockMu, broadcastBy] at h)
      all_goals (try split at h)
      all_goals (try split at h)
      all_goals (try (simp only [Option.some.injEq] at h))
      all_goals (try (cases h; done))
      all_goals subst h
      all_goals simp only [hpc, NilOnly] at hnil
      all_goals
        refine ⟨?_, ?_⟩
        · first
          | exact hst
          | (intro a fl hfl
             by_cases ha : a = s.nextAddr
             · subst ha
               simp [State.put] at hfl
             · simp only [State.put, Function.update_noteq ha] at hfl
               exact hst a fl hfl)
          | (intro a fl hfl
             simp only [State.put] at hfl
             by_cases hk : k = th.key
             · by_cases ha : a = th.guildStore
               · subst ha hk
                 simp only [setEntry, Function.update_same, Option.some.injEq] at hfl
                 first
                 | (cases hfl; done)
                 | (cases hfl; decide)
                 | exact (hnil rfl).elim
               · simp only [setEntry, Function.update_noteq ha] at hfl
                 exact hst a fl hfl
             · rw [setEntry_other_key _ _ _ _ _ _ hk] at hfl
               exact hst a fl hfl)
        · intro u x hx hk
          by_cases hu : u = t
          · subst hu
            simp only [State.put, Function.update_same, Option.some.injEq] at hx
            subst hx
            simp only [Thread.goto, Thread.log] at hk ⊢
            first
            | exact hnil hk
            | exact rfl
            | exact True.intro
            | exact hnil0 hk
            | exact (hnil hk).elim
            | (rename_i hfl hnf; rw [hk] at hfl; exact absurd (hst _ _ hfl) hnf)
            | (rename_i hreg; rw [hk, hunreg] at hreg; cases hreg)
          · exact hoth u hu x hx hk


theorem run_NeverLoads (env : Env B) (k : Key) (hunreg : env.registeredFeatureFlags k = none)
    (s0 s : State B) (h0 : NeverLoads k s0) (hrun : Run env s0 s) : NeverLoads k s := by
  induction hrun with
  | start => exact h0
  | next t _ hs ih => exact step_NeverLoads env k hunreg _ _ t hs ih
  | call t g' k' _ _ ih =>
    refine ⟨ih.1, ?_⟩
    intro u x hx hk
    by_cases hu : u = t
    · subst hu
      simp [spawn, State.put] at hx
      subst hx
      simp [NilOnly, newCall]
    · simp [spawn, State.put, Function.update, hu] at hx
      exact ih.2 u x hx hk

theorem unregistered_miss (env : Env B) (k : Key) (hunreg : env.registeredFeatureFlags k = none)
    (s : State B) (t : Tid) (g : GuildID)
    (hfree : s.locked = false) (hlive : s.fatal = false) (habsent : s.entry g k = none) :
    (GetFeatureFlagEnabled env s t g k).pcOf t = some (.l48 (.panicked .nilDeref)) ∧
    (GetFeatureFlagEnabled env s t g k).result t = none ∧
    (GetFeatureFlagEnabled env s t g k).fatal = true ∧
    (GetFeatureFlagEnabled env s t g k).locked = false ∧
    (GetFeatureFlagEnabled env s t g k).entry g k = none ∧
    (GetFeatureFlagEnabled env s t g k).fetchLog = s.fetchLog := by
  unfold State.entry at habsent
  cases hg : s.loadedGuildFlags g with
  | none =>
    simp [GetFeatureFlagEnabled, runThread, step, spawn, newCall, State.put, lockMu, unlockMu,
      broadcastBy, Thread.log, Thread.goto, setEntry, State.result, State.pcOf, State.entry,
      hfree, hlive, hg, hunreg]
  | some a =>
    simp [hg] at habsent
    simp [GetFeatureFlagEnabled, runThread, step, spawn, newCall, State.put, lockMu, unlockMu,
      broadcastBy, Thread.log, Thread.goto, setEntry, State.result, State.pcOf, State.entry,
      hfree, hlive, hg, hunreg, habsent]

/-- **C11** (unregistered key).  For a key without a definition in
`registeredFeatureFlags` and a table without a Loaded entry for it: in every
interleaving, a call for the key never invokes a fetch and never takes the success
path, and whenever it leaves `GetFeatureFlagEnabled` it does so by the nil-dereference
panic of line 102, never by a `(bool, error)` return; and a call that misses while
running alone ends with that panic pending, without a result, with no fetch logged and
with the pair absent again (not Fetching). -/
theorem C11_unregistered_key_panics (env : Env B) (k : Key)
    (hunreg : env.registeredFeatureFlags k = none) (s0 s : State B)
    (h0e : ∀ a fl, s0.stores a k = some fl → fl &&& LoadedFlagFetching ≠ 0)
    (h0t : ∀ t th, s0.threads t = some th → th.pc = .l47) (hrun : Run env s0 s)
    (t : Tid) (th : Thread) (hth : s.threads t = some th) (hk : th.key = k)
    (s1 : State B) (u : Tid) (g : GuildID) :
    NilOnly th.pc ∧ (∀ e, s.result t = some e → e = .panicked .nilDeref) ∧
    (s1.locked = false → s1.fatal = false → s1.entry g k = none →
      (GetFeatureFlagEnabled env s1 u g k).pcOf u = some (.l48 (.panicked .nilDeref)) ∧
      (GetFeatureFlagEnabled env s1 u g k).result u = none ∧
      (GetFeatureFlagEnabled env s1 u g k).fatal = true ∧
      (GetFeatureFlagEnabled env s1 u g k).locked = false ∧
      (GetFeatureFlagEnabled env s1 u g k).entry g k = none ∧
      (GetFeatureFlagEnabled env s1 u g k).fetchLog = s1.fetchLog) := by
  have hinv := run_NeverLoads env k hunreg s0 s
    ⟨h0e, fun v x hx _ => by rw [h0t v x hx]; trivial⟩ hrun
  have hnil := hinv.2 t th hth hk
  refine ⟨hnil, ?_, unregistered_miss env k hunreg s1 u g⟩
  intro e he
  simp only [State.result, hth] at he
  cases hpc : th.pc <;> simp [hpc] at he
  subst he
  simpa [hpc, NilOnly] using hnil

theorem C11_witness :
    NilOnly nilPanicThread.pc ∧
    (∀ e, afterNilPanic.result 0 = some e → e = .panicked .nilDeref) ∧
    ((emptyState 0 : State Nat).locked = false → (emptyState 0 : State Nat).fatal = false →
      (emptyState 0 : State Nat).entry 42 9 = none →
      (GetFeatureFlagEnabled demoEnv (emptyState 0) 0 42 9).pcOf 0 =
        some (.l48 (.panicked .nilDeref)) ∧
      (GetFeatureFlagEnabled demoEnv (emptyState 0) 0 42 9).result 0 = none ∧
      (GetFeatureFlagEnabled demoEnv (emptyState 0) 0 42 9).fatal = true ∧
      (GetFeatureFlagEnabled demoEnv (emptyState 0) 0 42 9).locked = false ∧
      (GetFeatureFlagEnabled demoEnv (emptyState 0) 0 42 9).entry 42 9 = none ∧
      (GetFeatureFlagEnabled demoEnv (emptyState 0) 0 42 9).fetchLog =
        (emptyState 0 : State Nat).fetchLog) :=
  C11_unregistered_key_panics demoEnv 9 rfl (callers (emptyState 0) 2 42 9) afterNilPanic
    (fun a fl h => by simp [callers, emptyState, idle] at h)
    (fun t th h => by rw [callers_thread _ _ _ _ t th h]; rfl)
    (steps_run _ _ _ (steps_trans _ _ _ _ (steps_trans _ _ _ _
      (runThread_steps demoEnv 0 11 _) (runThread_steps demoEnv 1 1 _))
      (runThread_steps demoEnv 0 1 _)))
    0 nilPanicThread (by rfl) rfl (emptyState 0) 0 42

theorem step_Framed (env : Env B) (g : GuildID) (k : Key) (s0 s s' : State B) (t : Tid)
    (h : step env s t = some s') (hi : Framed g k s0 s t) : Framed g k s0 s' t := by
  obtain ⟨h1, h2, h3, h4, h5⟩ := hi
  unfold step at h
  split at h
  · simp at h
  · split at h
    · simp at h
    · rename_i th hthr
      obtain ⟨hgid, hkey, hgs, h53⟩ := h5 th hthr
      have hgs0 := hgs
      have h530 := h53
      split at h
      all_goals rename_i hpc
      all_goals (try simp only [lockMu, unlockMu, broadcastBy] at h)
      all_goals (try split at h)
      all_goals (try split at h)
      all_goals (try (simp only [Option.some.injEq] at h))
      all_goals (try (cases h; done))
      all_goals subst h
      all_goals simp only [hpc, ne_eq, not_false_eq_true, reduceCtorEq, true_implies,
        false_implies, not_true_eq_false] at hgs h53
      all_goals
        have hsame : s.loadedGuildFlags g = none → s.nextAddr = s0.nextAddr := by
          intro hn
          cases h0 : s0.loadedGuildFlags g with
          | some a0 => rw [(h3 a0 h0).1] at hn; cases hn
          | none =>
            rcases h4 h0 with ⟨-, hx⟩ | ⟨hx, -⟩
            · exact hx
            · rw [hx] at hn; cases hn
      all_goals
        refine ⟨?_, ?_, ?_, ?_, ?_⟩
        · first
          | exact h1
          | (intro g' hg'
             show Function.update s.loadedGuildFlags th.guildID (some s.nextAddr) g' = _
             rw [hgid, Function.update_noteq hg']
             exact h1 g' hg')
        · first
          | exact h2
          | (intro a k' ha hn
             show Function.update s.stores s.nextAddr (fun _ => none) a k' = _
             rw [Function.update_noteq (by rw [hsame h53]; exact Nat.ne_of_lt ha)]
             exact h2 a k' ha hn)
          | (intro a k' ha hn
             show setEntry s.stores th.guildStore th.key _ a k' = _
             by_cases hk : k' = th.key
             · have hne : a ≠ th.guildStore := by
                 intro hag
                 subst hag
                 cases h0 : s0.loadedGuildFlags g with
                 | some a0 =>
                   have := (h3 a0 h0).1
                   rw [hgs] at this
                   cases this
                   exact hn ⟨h0, hk.trans hkey⟩
                 | none =>
                   rcases h4 h0 with ⟨hx, -⟩ | ⟨hx, -⟩
                   · rw [hgs] at hx; cases hx
                   · rw [hgs] at hx
                     have hx' := Option.some.inj hx
                     rw [hx'] at ha
                     exact Nat.lt_irrefl _ ha
               unfold setEntry
               rw [Function.update_noteq hne]
               exact h2 a k' ha hn
             · rw [setEntry_other_key _ _ _ _ _ _ hk]
               exact h2 a k' ha hn)
        · first
          | exact h3
          | (intro a0 h0
             have := (h3 a0 h0).1
             rw [h53] at this
             cases this)
        · first
          | exact h4
          | (intro h0
             right
             refine ⟨?_, ?_, ?_⟩
             · show Function.update s.loadedGuildFlags th.guildID (some s.nextAddr) g = _
               rw [hgid, Function.update_same, hsame h53]
             · show s.nextAddr + 1 = _
               rw [hsame h53]
             · intro k' _
               show Function.update s.stores s.nextAddr (fun _ => none) s0.nextAddr k' = none
               rw [hsame h53, Function.update_same])
          | (intro h0
             rcases h4 h0 with ⟨hx, -⟩ | ⟨hx, hy, hz⟩
             · rw [hgs] at hx; cases hx
             · right
               refine ⟨hx, hy, ?_⟩
               intro k' hk'
               show setEntry s.stores th.guildStore th.key _ s0.nextAddr k' = none
               rw [setEntry_other_key _ _ _ _ _ _ (by rw [hkey]; exact hk')]
               exact hz k' hk')
        · intro th' hth'
          simp only [State.put, Function.update_same, Option.some.injEq] at hth'
          subst hth'
          refine ⟨hgid, hkey, ?_, ?_⟩
          · first
            | exact hgs0
            | (intro _ _ _; exact hgs)
            | (intro _ h; exact absurd rfl h)
            | (intro _ _ h; exact absurd rfl h)
            | (rename_i hfound; intro _ _ _; rw [← hgid]; exact hfound)
            | (intro _ _ _
               show Function.update s.loadedGuildFlags th.guildID (some s.nextAddr) g = _
               rw [hgid, Function.update_same])
          · first
            | exact h530
            | (intro h; cases h; done)
            | (rename_i hmiss; intro _; rw [← hgid]; exact hmiss)


theorem runThread_Framed (env : Env B) (g : GuildID) (k : Key) (s0 : State B) (t : Tid)
    (n : Nat) : ∀ s : State B, Framed g k s0 s t → Framed g k s0 (runThread env t n s) t := by
  induction n with
  | zero => exact fun s h => h
  | succ n ih =>
    intro s h
    simp only [runThread]
    cases hs : step env s t with
    | none => exact h
    | some s1 => exact ih s1 (step_Framed env g k s0 s s1 t hs h)

theorem spawn_Framed (g : GuildID) (k : Key) (s : State B) (t : Tid) :
    Framed g k (spawn s t g k) (spawn s t g k) t := by
  refine ⟨fun _ _ => rfl, fun _ _ _ _ => rfl, fun a0 h => ⟨h, rfl⟩, fun h => Or.inl ⟨h, rfl⟩, ?_⟩
  intro th hth
  simp only [spawn, State.put, Function.update_same, Option.some.injEq] at hth
  subst hth
  exact ⟨rfl, rfl, fun h => absurd rfl h, fun h => by cases h⟩

theorem Framed_entry (g : GuildID) (k : Key) (s r : State B) (t : Tid)
    (hwf : WellFormed s) (hfr : Framed g k (spawn s t g k) r t)
    (g' : GuildID) (k' : Key) (hne : g' ≠ g ∨ k' ≠ k) : r.entry g' k' = s.entry g' k' := by
  obtain ⟨h1, h2, h3, h4, -⟩ := hfr
  have h1' : ∀ g', g' ≠ g → r.loadedGuildFlags g' = s.loadedGuildFlags g' := h1
  have h2' : ∀ a k', a < s.nextAddr → ¬(s.loadedGuildFlags g = some a ∧ k' = k) →
      r.stores a k' = s.stores a k' := h2
  have h3' : ∀ a0, s.loadedGuildFlags g = some a0 → r.loadedGuildFlags g = some a0 :=
    fun a0 h => (h3 a0 h).1
  have h4' : s.loadedGuildFlags g = none → r.loadedGuildFlags g = none ∨
      (r.loadedGuildFlags g = some s.nextAddr ∧ ∀ k', k' ≠ k → r.stores s.nextAddr k' = none) := by
    intro h
    rcases h4 h with ⟨hx, -⟩ | ⟨hx, -, hz⟩
    · exact Or.inl hx
    · exact Or.inr ⟨hx, hz⟩
  unfold State.entry
  by_cases hg : g' = g
  · subst hg
    have hk : k' ≠ k := by
      rcases hne with h | h
      · exact absurd rfl h
      · exact h
    cases h0 : s.loadedGuildFlags g' with
    | some a0 =>
      rw [h3' a0 h0]
      simp only [Option.bind]
      exact h2' a0 k' (hwf.1 g' a0 h0) (fun hc => hk hc.2)
    | none =>
      rcases h4' h0 with hx | ⟨hx, hz⟩
      · rw [hx]; rfl
      · rw [hx]
        simp only [Option.bind]
        exact hz k' hk
  · rw [h1' g' hg]
    cases h0 : s.loadedGuildFlags g' with
    | none => rfl
    | some a' =>
      simp only [Option.bind]
      exact h2' a' k' (hwf.1 g' a' h0) (fun hc => hg (hwf.2 g' g a' h0 hc.1))

/-- **C13** (frame).  On every table the code can build, for every pair `(g, k)`,
whatever the registry and the fetch do (hit, wait, fetch success, fetch error, fetch
panic, unregistered key), the call `GetFeatureFlagEnabled(g, k)` run by one goroutine
leaves the entry of every other pair `(g', k')` as it was; the inner map of every
other guild is the same object, the inner map of `g` is kept when it existed, and
otherwise the only change is a new inner map for `g` that is empty apart from `k`. -/
theorem C13_frame (env : Env B) (s : State B) (t : Tid) (g : GuildID) (k : Key)
    (hwf : WellFormed s) (g' : GuildID) (k' : Key) (hne : g' ≠ g ∨ k' ≠ k) :
    (GetFeatureFlagEnabled env s t g k).entry g' k' = s.entry g' k' ∧
    (g' ≠ g → (GetFeatureFlagEnabled env s t g k).loadedGuildFlags g' =
      s.loadedGuildFlags g') ∧
    (s.loadedGuildFlags g ≠ none →
      (GetFeatureFlagEnabled env s t g k).loadedGuildFlags g = s.loadedGuildFlags g) ∧
    (s.loadedGuildFlags g = none →
      (GetFeatureFlagEnabled env s t g k).loadedGuildFlags g = none ∨
        ((GetFeatureFlagEnabled env s t g k).loadedGuildFlags g = some s.nextAddr ∧
          ∀ k'', k'' ≠ k → (GetFeatureFlagEnabled env s t g k).stores s.nextAddr k'' = none)) := by
  have hfr : Framed g k (spawn s t g k) (GetFeatureFlagEnabled env s t g k) t :=
    runThread_Framed env g k _ t 16 _ (spawn_Framed g k s t)
  refine ⟨Framed_entry g k s _ t hwf hfr g' k' hne, fun hg => hfr.1 g' hg, ?_, ?_⟩
  · intro h
    cases h0 : s.loadedGuildFlags g with
    | none => exact absurd h0 h
    | some a0 => exact (hfr.2.2.1 a0 h0).1
  · intro h
    rcases hfr.2.2.2.1 h with ⟨hx, -⟩ | ⟨hx, -, hz⟩
    · exact Or.inl hx
    · exact Or.inr ⟨hx, hz⟩

theorem loadedTable_wellFormed : WellFormed loadedTable := by
  constructor
  · intro g a h
    simp only [loadedTable, idle] at h ⊢
    split at h
    · cases h; decide
    · cases h
  · intro g1 g2 a h1 h2
    simp only [loadedTable, idle] at h1 h2
    split at h1
    · split at h2
      · rename_i e1 e2; rw [e1, e2]
      · cases h2
    · cases h1

theorem C13_witness :
    (GetFeatureFlagEnabled demoEnv loadedTable 0 7 2).entry 42 1 = loadedTable.entry 42 1 ∧
    ((42 : GuildID) ≠ 7 → (GetFeatureFlagEnabled demoEnv loadedTable 0 7 2).loadedGuildFlags 42 =
      loadedTable.loadedGuildFlags 42) ∧
    (loadedTable.loadedGuildFlags 7 ≠ none →
      (GetFeatureFlagEnabled demoEnv loadedTable 0 7 2).loadedGuildFlags 7 =
        loadedTable.loadedGuildFlags 7) ∧
    (loadedTable.loadedGuildFlags 7 = none →
      (GetFeatureFlagEnabled demoEnv loadedTable 0 7 2).loadedGuildFlags 7 = none ∨
        ((GetFeatureFlagEnabled demoEnv loadedTable 0 7 2).loadedGuildFlags 7 =
            some loadedTable.nextAddr ∧
          ∀ k'', k'' ≠ 2 →
            (GetFeatureFlagEnabled demoEnv loadedTable 0 7 2).stores loadedTable.nextAddr k'' =
              none)) :=
  C13_frame demoEnv loadedTable 0 7 2 loadedTable_wellFormed 42 1 (Or.inl (by decide))


theorem step_WellFormed (env : Env B) (s s' : State B) (t : Tid)
    (h : step env s t = some s') (hwf : WellFormed s) : WellFormed s' := by
  obtain ⟨hlt, hinj⟩ := hwf
  unfold step at h
  split at h
  · simp at h
  · split at h
    · simp at h
    · rename_i th hthr
      split at h
      all_goals (try simp only [lockMu, unlockMu, broadcastBy] at h)
      all_goals (try split at h)
      all_goals (try split at h)
      all_goals (try (simp only [Option.some.injEq] at h))
      all_goals (try (cases h; done))
      all_goals subst h
      all_goals
        first
        | exact ⟨hlt, hinj⟩
        | (constructor
           · intro g a hga
             simp only [State.put] at hga ⊢
             by_cases hg : g = th.guildID
             · subst hg
               rw [Function.update_same] at hga
               cases hga
               exact Nat.lt_succ_self _
             · rw [Function.update_noteq hg] at hga
               exact Nat.lt_succ_of_lt (hlt g a hga)
           · intro g1 g2 a h1 h2
             simp only [State.put] at h1 h2
             by_cases hg1 : g1 = th.guildID
             · by_cases hg2 : g2 = th.guildID
               · rw [hg1, hg2]
               · subst hg1
                 rw [Function.update_same] at h1
                 rw [Function.update_noteq hg2] at h2
                 cases h1
                 exact absurd (hlt g2 _ h2) (Nat.lt_irrefl _)
             · by_cases hg2 : g2 = th.guildID
               · subst hg2
                 rw [Function.update_same] at h2
                 rw [Function.update_noteq hg1] at h1
                 cases h2
                 exact absurd (hlt g1 _ h1) (Nat.lt_irrefl _)
               · rw [Function.update_noteq hg1] at h1
                 rw [Function.update_noteq hg2] at h2
                 exact hinj g1 g2 a h1 h2)

theorem run_WellFormed (env : Env B) (s0 s : State B) (h0 : WellFormed s0)
    (hrun : Run env s0 s) : WellFormed s := by
  induction hrun with
  | start => exact h0
  | next t _ hs ih => exact step_WellFormed env _ _ t hs ih
  | call t g k _ _ ih => exact ih

theorem emptyState_wellFormed (bk : B) : WellFormed (emptyState bk) := by
  constructor
  · intro g a h; simp [emptyState, idle] at h
  · intro g1 g2 a h; simp [emptyState, idle] at h

/-- **C9** (Loaded is terminal), evaluated on three goroutines calling for the pairs
`(1, 1)`, `(2, 1)` and `(2, 2)` on the empty table: the unbalanced deferred `Unlock` of
goroutine 0 releases the mutex goroutine 1 holds, so goroutines 1 and 2 both find guild
2 without an inner map; goroutine 1 creates one and stores Loaded(true) for `(2, 1)`;
then goroutine 2 executes line 54 and replaces the inner map, and the pair `(2, 1)` is
absent again while the process is alive. -/
theorem C9_loaded_entry_dropped :
    (exec demoEnv twoGuildCallers beforeMapReplaced).map (fun s => (s.entry 2 1, s.fatal)) =
      some (some LoadedFlagEnabled, false) ∧
    (exec demoEnv twoGuildCallers mapReplacedSchedule).map (fun s => (s.entry 2 1, s.fatal)) =
      some (none, false) ∧
    (exec demoEnv twoGuildCallers mapReplacedSchedule).map (fun s => (s.pcOf 1, s.pcOf 2)) =
      some (some (.l115 true), some .l59) := by
  decide

end Featureflag
